import Mathlib

/-!
# stanclient

A shallow embedding of the Go package `stanclient` (a client wrapper around a
NATS Streaming connection) and of its `logwrapper` sub-package, followed by the
properties established about them.

Modelling conventions.

* A nilable Go interface value (`stan.Conn`, `stan.Subscription`) is an
  `Option` over a handle identifier; `none` is `nil`.
* The Go map `subscriptions` is a finite map with unique keys (`AList`).  The
  order in which a `range` loop enumerates the keys of a map is chosen by the Go
  runtime; the two functions that range over the map take that order as the
  explicit argument `iter`.
* The broker (`stan.go`) is an external collaborator.  It is a parameter
  `Broker`: a function that, given the record of all earlier broker calls and
  the present call, answers with an error message or with a handle.
* Every call to the broker is appended to the ghost field `calls`.  The ghost
  field `trace` lists, in the order in which they happen, every acquire and
  release of the mutex, every write to `conn` or to `subscriptions`, and every
  call to the broker.
* `Logger.Info` is a call to a logging collaborator which does not touch the
  client; it is left out.  `Logger.Fatal` terminates the process.
-/

namespace Stanclient

/-! ## Data model -/

/-- Identifier of a non-nil `stan.Conn`. -/
abbrev Conn := Nat

/-- Identifier of a non-nil `stan.Subscription`. -/
abbrev Subscription := Nat

/-- Identifier of a `stan.SubscriptionOption`. -/
abbrev SubscriptionOption := Nat

/-- Go `error` values produced by the package. -/
inductive Error where
  /-- The sentinel `errNotEnabled`. -/
  | errNotEnabled
  /-- An error value handed back by the broker library. -/
  | external (msg : String)
  /-- The value `fmt.Errorf(ctx + " %w", cause)`. -/
  | wrap (ctx : String) (cause : Error)
  /-- The value `fmt.Errorf("could not find subscription %s ...", key)`. -/
  | notFound (key : String)
  /-- The error of `retry.Do` after the last attempt failed with `last`. -/
  | retryFailed (last : Error)
  /-- The error of `retry.Do` when no attempt was made. -/
  | retryNoAttempt
  deriving DecidableEq, Repr

/-- The test `errors.Is(err, errNotEnabled)`: follows the chain of wrapped errors. -/
def Error.isNotEnabled : Error → Bool
  | .errNotEnabled => true
  | .wrap _ cause => cause.isNotEnabled
  | .retryFailed last => last.isNotEnabled
  | _ => false

/-- The struct `Retry` of `config.go`. -/
structure Retry where
  Attempts : Nat
  Delay : Int
  deriving DecidableEq, Repr

/-- The struct `Config` of `config.go`. -/
structure Config where
  Enabled : Bool
  ConnectRetry : Retry
  ReconnectRetry : Retry
  ClientID : String
  ClusterID : String
  NatsStreamingURL : String
  deriving DecidableEq, Repr

/-- The interface `Subscriber` of `subscriber.go`, as the values its getters return
(the message handler is passed through to the broker untouched and is left out). -/
structure Subscriber where
  Subject : String
  DurableName : String
  Name : String
  deriving DecidableEq, Repr

/-- The calls the package makes to the broker library. -/
inductive BrokerCall where
  /-- The call `stan.Connect(clusterID, clientID, stan.NatsURL(url), ...)`. -/
  | connect (clusterID clientID natsURL : String)
  /-- The call `conn.Subscribe(subject, handler, opts...)`. -/
  | subscribe (conn : Conn) (subject : String) (opts : List SubscriptionOption)
  /-- The call `conn.QueueSubscribe(subject, queueGroup, handler, opts...)`. -/
  | queueSubscribe (conn : Conn) (subject queueGroup : String) (opts : List SubscriptionOption)
  /-- The call `subscription.Unsubscribe()`. -/
  | unsubscribe (sub : Subscription)
  /-- The call `conn.Close()`. -/
  | close (conn : Conn)
  deriving DecidableEq, Repr

/-- One broker call together with whether the broker reported success. -/
structure CallRecord where
  call : BrokerCall
  ok : Bool
  deriving DecidableEq, Repr

/-- The broker: from the record of earlier calls and the present call to an error
message or a handle (the handle is ignored for `unsubscribe` and `close`). -/
abbrev Broker := List CallRecord → BrokerCall → Except String Nat

/-- Lock operations, writes to the shared fields of a client, and broker calls. -/
inductive Event where
  /-- The call `c.lock.Lock()`. -/
  | lock
  /-- The call `c.lock.Unlock()`. -/
  | unlock
  /-- An assignment to `c.conn`. -/
  | writeConn (v : Option Conn)
  /-- An assignment `c.subscriptions[key] = v`. -/
  | writeSub (key : String) (v : Option Subscription)
  /-- A call to the broker library. -/
  | call (r : CallRecord)
  deriving DecidableEq, Repr

/-- The map `subscriptions map[string]stan.Subscription`. -/
abbrev Registry := AList (fun _ : String => Option Subscription)

/-- The struct `Client`, with the ghost fields `calls` and `trace`.  The field
`reconnectFunc` is a function on clients and is passed to the connection-lost
handler as an argument instead. -/
structure Client where
  conn : Option Conn
  subscriptions : Registry
  clientID : String
  config : Config
  calls : List CallRecord
  trace : List Event

/-- What a public operation does: return `nil`, return an error, or panic. -/
inductive Outcome where
  | nil
  | err (e : Error)
  | panic (msg : String)
  deriving DecidableEq, Repr

/-- How the connection-lost handler ends: it returns, or `Logger.Fatal` ends the process. -/
inductive HandlerResult where
  | returned
  | fatal (msg : String)
  deriving DecidableEq, Repr

/-- Append an event to the trace. -/
def Client.emit (c : Client) (e : Event) : Client :=
  { c with trace := c.trace ++ [e] }

/-- The assignment `c.conn = v`. -/
def Client.setConn (c : Client) (v : Option Conn) : Client :=
  { c with conn := v, trace := c.trace ++ [Event.writeConn v] }

/-- The assignment `c.subscriptions[key] = v`. -/
def Client.setSub (c : Client) (key : String) (v : Option Subscription) : Client :=
  { c with subscriptions := c.subscriptions.insert key v,
           trace := c.trace ++ [Event.writeSub key v] }

/-- Record a broker call in both ghost fields. -/
def Client.record (c : Client) (r : CallRecord) : Client :=
  { c with calls := c.calls ++ [r], trace := c.trace ++ [Event.call r] }

/-- Make a call to the broker and record it. -/
def Client.callBroker (b : Broker) (c : Client) (call : BrokerCall) :
    Client × Except String Nat :=
  let r := b c.calls call
  (c.record (CallRecord.mk call r.isOk), r)

/-! ## client.go -/

/-- The values `wrapClientID` reads from the host. -/
structure Host where
  /-- The result of `os.Hostname()`, `none` when it fails. -/
  hostname : Option String
  /-- Whether `runtime.GOOS == "darwin"`. -/
  darwin : Bool
  /-- The result of `rand.Intn(100)`. -/
  rand : Nat

/-- The call `regexp.MustCompile("[^a-zA-Z0-9]+").ReplaceAllString(s, "-")` on the
characters of `s`; `inRun` tells that the preceding character was replaced. -/
def replaceNonAlnum : Bool → List Char → List Char
  | _, [] => []
  | inRun, ch :: rest =>
    if ch.isAlphanum then ch :: replaceNonAlnum false rest
    else if inRun then replaceNonAlnum true rest
    else '-' :: replaceNonAlnum true rest

/-- The function `wrapClientID`. -/
def wrapClientID (host : Host) (clientID : String) : String :=
  let hostname := match host.hostname with
    | some h => h
    | none => "<error>"
  let hostname := String.mk (replaceNonAlnum false hostname.data)
  if host.darwin then clientID ++ "-" ++ (hostname ++ toString (host.rand % 100))
  else clientID ++ "-" ++ hostname

/-- Modelled from the spec: `retry.Do` of the external retry utility with
`retry.Attempts(attempts)` and a fixed delay, "retry with fixed delay, N
attempts": the function is run until it succeeds, at most `attempts` times, and
zero attempts fail at once.  The delay is not modelled.  `last` is the error to
return when no attempt is left. -/
def retryLoop (f : Client → Client × Option Error) : Nat → Error → Client → Client × Option Error
  | 0, last, c => (c, some last)
  | n + 1, _, c =>
    match f c with
    | (c1, none) => (c1, none)
    | (c1, some e) => retryLoop f n (Error.retryFailed e) c1

/-- Modelled from the spec: `retry.Do(f, ..., retry.Attempts(attempts))`, see `retryLoop`. -/
def retryDo (attempts : Nat) (f : Client → Client × Option Error) (c : Client) :
    Client × Option Error :=
  retryLoop f attempts Error.retryNoAttempt c

/-- The retried function of `connect`: `c.conn, retryErr = stan.Connect(...)`, where
`stan.Connect` hands back a nil connection together with an error. -/
def connectAttempt (b : Broker) (c : Client) : Client × Option Error :=
  match c.callBroker b
      (BrokerCall.connect c.config.ClusterID c.clientID c.config.NatsStreamingURL) with
  | (c1, Except.error e) =>
    (c1.setConn none,
      some (Error.wrap "cannot connect, make sure a NATS Streaming Server is running"
        (Error.external e)))
  | (c1, Except.ok h) => (c1.setConn (some h), none)

/-- The method `Client.connect`. -/
def connect (b : Broker) (c : Client) : Client × Option Error :=
  let c := c.emit Event.lock
  if c.conn.isSome then (c.emit Event.unlock, none)
  else if !c.config.Enabled then (c.emit Event.unlock, some Error.errNotEnabled)
  else
    match retryDo c.config.ConnectRetry.Attempts (connectAttempt b) c with
    | (c1, some e) => (c1.emit Event.unlock, some (Error.wrap "all retries failed to connect" e))
    | (c1, none) => (c1.emit Event.unlock, none)

/-- The connection-lost handler that `connect` registers with `stan.Connect`.  The
broker library invokes it, on a goroutine of its own, when the connection is
lost; it is an operation of its own here.  `reconnectFunc` is the field
`c.reconnectFunc`, `none` when it is nil. -/
def connectionLostHandler (b : Broker) (reconnectFunc : Option (Client → Client × Option Error))
    (c : Client) : Client × HandlerResult :=
  match reconnectFunc with
  | none => (c, HandlerResult.fatal "Connection lost")
  | some f =>
    let c := c.setConn none
    match retryDo c.config.ReconnectRetry.Attempts (connect b) c with
    | (c1, some _) => (c1, HandlerResult.fatal "All attempts to reconnect to the streaming server failed")
    | (c1, none) =>
      match f c1 with
      | (c2, some _) => (c2, HandlerResult.fatal "Reconnection func failed")
      | (c2, none) => (c2, HandlerResult.returned)

/-- The function `New`.  The arguments `logger` and `reconnectFunc` are only stored
by `New` and are left out; the broker calls of a failed construction are not
returned. -/
def New (b : Broker) (host : Host) (config : Config) (wrapID : Bool) : Except Error Client :=
  let clientID := if wrapID then wrapClientID host config.ClientID else config.ClientID
  let client : Client :=
    { conn := none, subscriptions := ∅, clientID := clientID, config := config,
      calls := [], trace := [] }
  if config.Enabled then
    match connect b client with
    | (_, some e) => Except.error (Error.wrap "failed to connect" e)
    | (c1, none) => Except.ok c1
  else Except.ok client

/-- The method `Client.Close`. -/
def Close (b : Broker) (c : Client) : Client × Outcome :=
  match c.conn with
  | some h =>
    match c.callBroker b (BrokerCall.close h) with
    | (c1, Except.error e) => (c1, Outcome.err (Error.external e))
    | (c1, Except.ok _) => (c1, Outcome.nil)
  | none => (c, Outcome.nil)

/-- The method `Client.Subscribe`. -/
def Subscribe (b : Broker) (subscriber : Subscriber) (opts : List SubscriptionOption)
    (c : Client) : Client × Outcome :=
  match connect b c with
  | (c1, some e) =>
    if e.isNotEnabled then (c1, Outcome.nil)
    else (c1, Outcome.err (Error.wrap "failed to connect" e))
  | (c1, none) =>
    match c1.conn with
    | none => (c1, Outcome.panic "nil pointer dereference")
    | some h =>
      match c1.callBroker b (BrokerCall.subscribe h subscriber.Subject opts) with
      | (c2, Except.error e) => (c2, Outcome.err (Error.wrap "error subscribing" (Error.external e)))
      | (c2, Except.ok s) =>
        (c2.setSub (subscriber.Subject ++ "-" ++ subscriber.Name) (some s), Outcome.nil)

/-- The method `Client.QueueSubscribe`. -/
def QueueSubscribe (b : Broker) (subscriber : Subscriber) (queueGroup : String)
    (opts : List SubscriptionOption) (c : Client) : Client × Outcome :=
  match connect b c with
  | (c1, some e) =>
    if e.isNotEnabled then (c1, Outcome.nil)
    else (c1, Outcome.err (Error.wrap "failed to connect" e))
  | (c1, none) =>
    match c1.conn with
    | none => (c1, Outcome.panic "nil pointer dereference")
    | some h =>
      match c1.callBroker b (BrokerCall.queueSubscribe h subscriber.Subject queueGroup opts) with
      | (c2, Except.error e) =>
        (c2, Outcome.err (Error.wrap "error queue subscribing" (Error.external e)))
      | (c2, Except.ok s) =>
        (c2.setSub (subscriber.Subject ++ "-" ++ queueGroup ++ "-" ++ subscriber.Name) (some s),
          Outcome.nil)

/-- The loop of the case `"all"` of `Unsubscribe`, over the keys in the order `iter`
in which the runtime enumerates them. -/
def unsubscribeAll (b : Broker) : List String → Client → Client × Option Error
  | [], c => (c, none)
  | key :: rest, c =>
    match c.subscriptions.lookup key with
    | some (some sub) =>
      match c.callBroker b (BrokerCall.unsubscribe sub) with
      | (c1, Except.error e) => (c1, some (Error.wrap "unsubscribe all failed" (Error.external e)))
      | (c1, Except.ok _) => unsubscribeAll b rest (c1.setSub key none)
    | _ => unsubscribeAll b rest c

/-- The method `Client.Unsubscribe`; `iter` is the order in which the runtime
enumerates the keys of the map in the case `"all"`. -/
def Unsubscribe (b : Broker) (iter : List String) (subscriber : String) (c : Client) :
    Client × Outcome :=
  match connect b c with
  | (c1, some e) =>
    if e.isNotEnabled then (c1, Outcome.nil)
    else (c1, Outcome.err (Error.wrap "failed to reconnect" e))
  | (c1, none) =>
    if subscriber = "all" then
      match unsubscribeAll b iter c1 with
      | (c2, some e) => (c2, Outcome.err e)
      | (c2, none) => (c2, Outcome.nil)
    else
      match c1.subscriptions.lookup subscriber with
      | some (some sub) =>
        match c1.callBroker b (BrokerCall.unsubscribe sub) with
        | (c2, Except.error e) => (c2, Outcome.err (Error.wrap "unsubscribe failed" (Error.external e)))
        | (c2, Except.ok _) => (c2.setSub subscriber none, Outcome.nil)
      | _ => (c1, Outcome.err (Error.notFound subscriber))

/-- The method `Client.Subscriptions`; `iter` is the order in which the runtime
enumerates the keys of the map. -/
def Subscriptions (iter : List String) (c : Client) : List String :=
  iter.foldl
    (fun result subscription =>
      match c.subscriptions.lookup subscription with
      | some (some _) => result ++ [subscription]
      | _ => result)
    []

/-! ## Sequences of calls -/

/-- A call of one of the public operations. -/
inductive Op where
  | subscribe (subscriber : Subscriber) (opts : List SubscriptionOption)
  | queueSubscribe (subscriber : Subscriber) (queueGroup : String) (opts : List SubscriptionOption)
  | unsubscribe (iter : List String) (subscriber : String)
  | close

/-- Perform one call. -/
def step (b : Broker) : Op → Client → Client × Outcome
  | Op.subscribe subscriber opts, c => Subscribe b subscriber opts c
  | Op.queueSubscribe subscriber queueGroup opts, c => QueueSubscribe b subscriber queueGroup opts c
  | Op.unsubscribe iter subscriber, c => Unsubscribe b iter subscriber c
  | Op.close, c => Close b c

/-- Perform a sequence of calls one after the other, collecting what each returns. -/
def run (b : Broker) : List Op → Client → Client × List Outcome
  | [], c => (c, [])
  | op :: rest, c =>
    let r := step b op c
    let rs := run b rest r.1
    (rs.1, r.2 :: rs.2)

/-! ## Vocabulary of the properties -/

/-- The value stored under a key is a live (non-nil) subscription. -/
def isLive (m : Registry) (key : String) : Bool :=
  match m.lookup key with
  | some (some _) => true
  | _ => false

/-- The number of entries of the map whose value is not nil. -/
def liveCount (m : Registry) : Nat :=
  (m.entries.filter (fun e => e.2.isSome)).length

/-- The broker calls made after the first `before.calls.length` ones. -/
def newCalls (before after : Client) : List CallRecord :=
  after.calls.drop before.calls.length

/-- The events recorded after the first `before.trace.length` ones. -/
def newEvents (before after : Client) : List Event :=
  after.trace.drop before.trace.length

/-- Whether a broker call is a connection attempt. -/
def BrokerCall.isConnect : BrokerCall → Bool
  | BrokerCall.connect _ _ _ => true
  | _ => false

/-- The number of connection attempts among some broker calls. -/
def connectAttempts (calls : List CallRecord) : Nat :=
  (calls.filter (fun r => r.call.isConnect)).length

/-- Whether an event writes the connection handle. -/
def Event.isConnWrite : Event → Bool
  | Event.writeConn _ => true
  | _ => false

/-- Whether an event writes the subscription map. -/
def Event.isSubWrite : Event → Bool
  | Event.writeSub _ _ => true
  | _ => false

/-- Pair every event of an operation with whether the goroutine running the
operation holds the lock when the event happens (for `lock` and `unlock`: right
after it), `held` telling whether it holds the lock before the first event. -/
def lockStates : Bool → List Event → List (Event × Bool)
  | _, [] => []
  | _, Event.lock :: rest => (Event.lock, true) :: lockStates true rest
  | _, Event.unlock :: rest => (Event.unlock, false) :: lockStates false rest
  | held, Event.writeConn v :: rest => (Event.writeConn v, held) :: lockStates held rest
  | held, Event.writeSub k v :: rest => (Event.writeSub k v, held) :: lockStates held rest
  | held, Event.call r :: rest => (Event.call r, held) :: lockStates held rest

/-- The state of a disabled client that has never been connected. -/
def Inert (c : Client) : Prop :=
  c.conn = none ∧ c.config.Enabled = false ∧ c.subscriptions = ∅ ∧ c.calls = []

/-- Whether an event is a connection attempt. -/
def Event.isConnectAttempt : Event → Bool
  | Event.call r => r.call.isConnect
  | _ => false

/-- The number of connection attempts among some events. -/
def connectEvents (events : List Event) : Nat :=
  (events.filter Event.isConnectAttempt).length

/-- A broker that rejects every connection attempt. -/
def RejectsConnect (b : Broker) : Prop :=
  ∀ hist clusterID clientID natsURL,
    (b hist (BrokerCall.connect clusterID clientID natsURL)).isOk = false

/-- A client without connection, with the given configuration, whose logs extend the given ones. -/
def Disconnected (config : Config) (trace : List Event) (calls : List CallRecord)
    (c : Client) : Prop :=
  c.conn = none ∧ c.config = config ∧
    (∃ es, c.trace = trace ++ es) ∧ (∃ ks, c.calls = calls ++ ks)

/-- Whether an event acquires or releases the lock. -/
def Event.isLockOp : Event → Bool
  | Event.lock => true
  | Event.unlock => true
  | _ => false

/-- Events of a critical section of `connect`: no lock operation and no write to the map. -/
def ConnPhase (es : List Event) : Prop :=
  ∀ e ∈ es, e.isLockOp = false ∧ e.isSubWrite = false

/-- Events that follow `connect` in an operation: no lock operation and no write to `conn`. -/
def SubPhase (es : List Event) : Prop :=
  ∀ e ∈ es, e.isLockOp = false ∧ e.isConnWrite = false

/-- Every write to `conn` or to the map among the events of an operation happens
between an acquire and the matching release made by that operation. -/
def WritesUnderLock (es : List Event) : Prop :=
  ∀ p ∈ lockStates false es, (p.1.isConnWrite = true ∨ p.1.isSubWrite = true) → p.2 = true

/-! ## Concrete inputs -/

/-- A broker that accepts every call and hands out the number of earlier calls as handle. -/
def acceptAll : Broker := fun hist _ => Except.ok hist.length

/-- A broker that rejects every call. -/
def rejectAll : Broker := fun _ _ => Except.error "down"

/-- A broker that rejects exactly the unsubscription of handle 11. -/
def rejectEleven : Broker := fun hist call =>
  if call = BrokerCall.unsubscribe 11 then Except.error "down" else Except.ok hist.length

/-- A configuration with two connect attempts and one reconnect attempt. -/
def sampleConfig : Config :=
  { Enabled := true, ConnectRetry := Retry.mk 2 1, ReconnectRetry := Retry.mk 1 1,
    ClientID := "svc", ClusterID := "test-cluster", NatsStreamingURL := "nats://localhost:4222" }

/-- The same configuration, disabled. -/
def disabledConfig : Config := { sampleConfig with Enabled := false }

/-- A map with the live keys `s-a` and `s-c` and the tombstoned key `s-b`. -/
def sampleRegistry : Registry :=
  (((∅ : Registry).insert "s-a" (some 10)).insert "s-b" none).insert "s-c" (some 11)

/-- A connected, enabled client holding `sampleRegistry`. -/
def sampleClient : Client :=
  { conn := some 1, subscriptions := sampleRegistry, clientID := "svc", config := sampleConfig,
    calls := [], trace := [] }

/-- A reconnect callback that does nothing and succeeds. -/
def noopReconnect : Client → Client × Option Error := fun c => (c, none)

/-- A subscriber with subject `s` and name `n`. -/
def sampleSubscriber : Subscriber := { Subject := "s", DurableName := "", Name := "n" }

/-- A host named `my host!` that is not a darwin machine. -/
def sampleHost : Host := { hostname := some "my host!", darwin := false, rand := 7 }

end Stanclient

/-! ## logwrapper/zap.go -/

namespace Logwrapper

/-- A `zap.Field`, by its key, its type tag, and its integer and string payloads. -/
structure Field where
  Key : String
  Kind : Nat
  Integer : Int
  Text : String
  deriving DecidableEq, Repr

/-- Go values of type `interface{}` handed to the wrapper. -/
inductive Value where
  /-- A `string`. -/
  | str (s : String)
  /-- An `int`. -/
  | int (n : Int)
  /-- A `zap.Field`. -/
  | field (f : Field)
  /-- A slice of type `[]interface{}`. -/
  | slice (elems : List Value)

/-- The two levels the wrapper logs at. -/
inductive Level where
  | info
  | fatal
  deriving DecidableEq, Repr

/-- A call `logger.Info(msg, fields...)` or `logger.Fatal(msg, fields...)` on the zap logger. -/
structure LogCall where
  level : Level
  msg : String
  fields : List Field
  deriving DecidableEq, Repr

/-- The loop of `getMsgAndFields` over the arguments after the first one; an `error`
is a panic with that message. -/
def collectFields : List Value → List Field → Except String (List Field)
  | [], fields => Except.ok fields
  | Value.field f :: rest, fields => collectFields rest (fields ++ [f])
  | _ :: _, _ => Except.error "arg not zap field"

/-- The function `getMsgAndFields`; an `error` is a panic with that message. -/
def getMsgAndFields (args : List Value) : Except String (String × List Field) :=
  match args with
  | [] => Except.error "missing mandatory zap log msg"
  | Value.str msg :: rest =>
    match collectFields rest [] with
    | Except.ok fields => Except.ok (msg, fields)
    | Except.error e => Except.error e
  | _ :: _ => Except.error "first argument not string"

/-- The method `ZapWrapper.Info`: `getMsgAndFields(args...)`, then `w.logger.Info`. -/
def Info (args : List Value) : Except String LogCall :=
  match getMsgAndFields args with
  | Except.ok (msg, fields) => Except.ok (LogCall.mk Level.info msg fields)
  | Except.error e => Except.error e

/-- The method `ZapWrapper.Fatal`: `getMsgAndFields(args)`, where the slice `args` is
passed as the single variadic argument, then `w.logger.Fatal`. -/
def Fatal (args : List Value) : Except String LogCall :=
  match getMsgAndFields [Value.slice args] with
  | Except.ok (msg, fields) => Except.ok (LogCall.mk Level.fatal msg fields)
  | Except.error e => Except.error e

/-- The field `zap.String("key", "val")`. -/
def sampleField : Field := { Key := "key", Kind := 15, Integer := 0, Text := "val" }

end Logwrapper

/-! ## Properties of client.go -/

namespace Stanclient

/-! ### Auxiliary facts -/

theorem connect_of_connected (b : Broker) (c : Client) (h : c.conn.isSome = true) :
    connect b c = ((c.emit Event.lock).emit Event.unlock, none) := by
  simp [connect, Client.emit, h]

theorem connect_of_disabled (b : Broker) (c : Client) (hconn : c.conn = none)
    (hdis : c.config.Enabled = false) :
    connect b c = ((c.emit Event.lock).emit Event.unlock, some Error.errNotEnabled) := by
  simp [connect, Client.emit, hconn, hdis]

theorem subscriptions_eq_filter (iter : List String) (c : Client) :
    Subscriptions iter c = iter.filter (isLive c.subscriptions) := by
  have key : ∀ (l acc : List String),
      l.foldl
        (fun result subscription =>
          match c.subscriptions.lookup subscription with
          | some (some _) => result ++ [subscription]
          | _ => result) acc = acc ++ l.filter (isLive c.subscriptions) := by
    intro l
    induction l with
    | nil => intro acc; simp
    | cons k rest ih =>
      intro acc
      rw [List.foldl_cons, ih]
      cases hk : c.subscriptions.lookup k with
      | none => simp [List.filter_cons, isLive, hk]
      | some v =>
        cases v with
        | none => simp [List.filter_cons, isLive, hk]
        | some s => simp [List.filter_cons, isLive, hk]
  simpa [Subscriptions] using key iter []

theorem mem_subscriptions (iter : List String) (c : Client) (k : String) :
    k ∈ Subscriptions iter c ↔ k ∈ iter ∧ isLive c.subscriptions k = true := by
  rw [subscriptions_eq_filter, List.mem_filter]

theorem isLive_iff (m : Registry) (k : String) :
    isLive m k = true ↔ ∃ s, m.lookup k = some (some s) := by
  unfold isLive
  cases h : m.lookup k with
  | none => simp
  | some v => cases v <;> simp

theorem unsubscribe_key_of_connected (b : Broker) (iter : List String) (k : String) (c : Client)
    (hconn : c.conn.isSome = true) (hk : k ≠ "all") :
    Unsubscribe b iter k c =
      match c.subscriptions.lookup k with
      | some (some sub) =>
        match b c.calls (BrokerCall.unsubscribe sub) with
        | Except.error e =>
          (Client.record ((c.emit Event.lock).emit Event.unlock)
              (CallRecord.mk (BrokerCall.unsubscribe sub) false),
            Outcome.err (Error.wrap "unsubscribe failed" (Error.external e)))
        | Except.ok _ =>
          (Client.setSub (Client.record ((c.emit Event.lock).emit Event.unlock)
              (CallRecord.mk (BrokerCall.unsubscribe sub) true)) k none,
            Outcome.nil)
      | _ => ((c.emit Event.lock).emit Event.unlock, Outcome.err (Error.notFound k)) := by
  unfold Unsubscribe
  rw [connect_of_connected b c hconn]
  simp only [hk, if_false]
  have hsub : ((c.emit Event.lock).emit Event.unlock).subscriptions = c.subscriptions := rfl
  rw [hsub]
  cases hl : c.subscriptions.lookup k with
  | none => rfl
  | some v =>
    cases v with
    | none => rfl
    | some sub =>
      simp only [Client.callBroker, Client.emit]
      cases hb : b c.calls (BrokerCall.unsubscribe sub) with
      | error e => simp [Except.isOk, Except.toBool]
      | ok n => simp [Except.isOk, Except.toBool]

/-! ### The claims -/

/-- C1: on a connected, enabled client, `Unsubscribe(k)` for a key `k` other than
`"all"` whose entry is live, when the broker-level unsubscribe succeeds, returns
no error; afterwards `k` is still present with a nil value, `Subscriptions()`
does not contain `k` (whatever the enumeration order), and every other entry is
unchanged. -/
theorem unsubscribe_live_key (b : Broker) (iter order : List String) (k : String) (c : Client)
    (sub : Subscription)
    (hconn : c.conn.isSome = true) (_henabled : c.config.Enabled = true) (hk : k ≠ "all")
    (hlive : c.subscriptions.lookup k = some (some sub))
    (hok : (b c.calls (BrokerCall.unsubscribe sub)).isOk = true) :
    (Unsubscribe b iter k c).2 = Outcome.nil ∧
    (Unsubscribe b iter k c).1.subscriptions.lookup k = some none ∧
    k ∈ (Unsubscribe b iter k c).1.subscriptions.keys ∧
    k ∉ Subscriptions order (Unsubscribe b iter k c).1 ∧
    ∀ k2, k2 ≠ k →
      (Unsubscribe b iter k c).1.subscriptions.lookup k2 = c.subscriptions.lookup k2 := by
  rw [unsubscribe_key_of_connected b iter k c hconn hk, hlive]
  cases hb : b c.calls (BrokerCall.unsubscribe sub) with
  | error e => simp [hb, Except.isOk, Except.toBool] at hok
  | ok n =>
    simp only [Client.setSub, Client.emit, Client.record, hb]
    refine ⟨trivial, AList.lookup_insert _, ?_, ?_, ?_⟩
    · simp
    · rw [mem_subscriptions]
      simp [isLive]
    · intro k2 hk2
      exact AList.lookup_insert_ne hk2

/-- Witness of C1: the key `s-a` of the sample client. -/
theorem unsubscribe_live_key_witness :
    (Unsubscribe acceptAll [] "s-a" sampleClient).2 = Outcome.nil ∧
    (Unsubscribe acceptAll [] "s-a" sampleClient).1.subscriptions.lookup "s-a" = some none ∧
    "s-a" ∈ (Unsubscribe acceptAll [] "s-a" sampleClient).1.subscriptions.keys ∧
    "s-a" ∉ Subscriptions ["s-c", "s-b", "s-a"] (Unsubscribe acceptAll [] "s-a" sampleClient).1 ∧
    ∀ k2, k2 ≠ "s-a" →
      (Unsubscribe acceptAll [] "s-a" sampleClient).1.subscriptions.lookup k2 =
        sampleClient.subscriptions.lookup k2 :=
  unsubscribe_live_key acceptAll [] ["s-c", "s-b", "s-a"] "s-a" sampleClient 10
    (by decide) (by decide) (by decide) (by decide) (by decide)

/-- C3: on a connected, enabled client and for a key `k` other than `"all"`: when
`k` is absent from the registry or present with a nil value, `Unsubscribe(k)`
returns an error, makes no broker call and leaves the registry unchanged; and
when an `Unsubscribe(k)` succeeds, the `Unsubscribe(k)` that directly follows it
returns an error. -/
theorem unsubscribe_unknown_or_tombstoned (b : Broker) (iter iter2 : List String) (k : String)
    (c : Client)
    (hconn : c.conn.isSome = true) (_henabled : c.config.Enabled = true) (hk : k ≠ "all") :
    ((c.subscriptions.lookup k = none ∨ c.subscriptions.lookup k = some none) →
      (∃ e, (Unsubscribe b iter k c).2 = Outcome.err e) ∧
      (Unsubscribe b iter k c).1.calls = c.calls ∧
      (Unsubscribe b iter k c).1.subscriptions = c.subscriptions) ∧
    ((Unsubscribe b iter k c).2 = Outcome.nil →
      ∃ e, (Unsubscribe b iter2 k (Unsubscribe b iter k c).1).2 = Outcome.err e) := by
  constructor
  · intro habsent
    rw [unsubscribe_key_of_connected b iter k c hconn hk]
    rcases habsent with h | h <;> rw [h] <;> exact ⟨⟨_, rfl⟩, rfl, rfl⟩
  · intro hfirst
    have hshape := unsubscribe_key_of_connected b iter k c hconn hk
    cases hl : c.subscriptions.lookup k with
    | none => rw [hshape, hl] at hfirst; simp at hfirst
    | some v =>
      cases v with
      | none => rw [hshape, hl] at hfirst; simp at hfirst
      | some sub =>
        rw [hl] at hshape
        cases hb : b c.calls (BrokerCall.unsubscribe sub) with
        | error e => rw [hshape] at hfirst; simp [hb] at hfirst
        | ok n =>
          simp only [hb] at hshape
          have hconn2 : (Unsubscribe b iter k c).1.conn.isSome = true := by
            rw [hshape]; exact hconn
          have htomb : (Unsubscribe b iter k c).1.subscriptions.lookup k = some none := by
            rw [hshape]; exact AList.lookup_insert _
          rw [unsubscribe_key_of_connected b iter2 k _ hconn2 hk, htomb]
          exact ⟨_, rfl⟩

/-- Witness of C3: the tombstoned key `s-b` of the sample client, and the live key
`s-a` unsubscribed twice. -/
theorem unsubscribe_unknown_or_tombstoned_witness :
    ((∃ e, (Unsubscribe acceptAll [] "s-b" sampleClient).2 = Outcome.err e) ∧
      (Unsubscribe acceptAll [] "s-b" sampleClient).1.calls = sampleClient.calls ∧
      (Unsubscribe acceptAll [] "s-b" sampleClient).1.subscriptions =
        sampleClient.subscriptions) ∧
    (∃ e, (Unsubscribe acceptAll [] "s-a"
        (Unsubscribe acceptAll [] "s-a" sampleClient).1).2 = Outcome.err e) :=
  ⟨(unsubscribe_unknown_or_tombstoned acceptAll [] [] "s-b" sampleClient
      (by decide) (by decide) (by decide)).1 (Or.inr (by decide)),
   (unsubscribe_unknown_or_tombstoned acceptAll [] [] "s-a" sampleClient
      (by decide) (by decide) (by decide)).2 (by decide)⟩

theorem subscribe_of_connected (b : Broker) (subscriber : Subscriber)
    (opts : List SubscriptionOption) (c : Client) (h : Conn) (hconn : c.conn = some h) :
    Subscribe b subscriber opts c =
      match b c.calls (BrokerCall.subscribe h subscriber.Subject opts) with
      | Except.error e =>
        (Client.record ((c.emit Event.lock).emit Event.unlock)
            (CallRecord.mk (BrokerCall.subscribe h subscriber.Subject opts) false),
          Outcome.err (Error.wrap "error subscribing" (Error.external e)))
      | Except.ok s =>
        (Client.setSub (Client.record ((c.emit Event.lock).emit Event.unlock)
            (CallRecord.mk (BrokerCall.subscribe h subscriber.Subject opts) true))
            (subscriber.Subject ++ "-" ++ subscriber.Name) (some s),
          Outcome.nil) := by
  unfold Subscribe
  rw [connect_of_connected b c (by simp [hconn])]
  simp only [Client.callBroker, Client.emit, hconn]
  cases hb : b c.calls (BrokerCall.subscribe h subscriber.Subject opts) with
  | error e => simp [Except.isOk, Except.toBool]
  | ok n => simp [Except.isOk, Except.toBool]

theorem queueSubscribe_of_connected (b : Broker) (subscriber : Subscriber) (queueGroup : String)
    (opts : List SubscriptionOption) (c : Client) (h : Conn) (hconn : c.conn = some h) :
    QueueSubscribe b subscriber queueGroup opts c =
      match b c.calls (BrokerCall.queueSubscribe h subscriber.Subject queueGroup opts) with
      | Except.error e =>
        (Client.record ((c.emit Event.lock).emit Event.unlock)
            (CallRecord.mk (BrokerCall.queueSubscribe h subscriber.Subject queueGroup opts) false),
          Outcome.err (Error.wrap "error queue subscribing" (Error.external e)))
      | Except.ok s =>
        (Client.setSub (Client.record ((c.emit Event.lock).emit Event.unlock)
            (CallRecord.mk (BrokerCall.queueSubscribe h subscriber.Subject queueGroup opts) true))
            (subscriber.Subject ++ "-" ++ queueGroup ++ "-" ++ subscriber.Name) (some s),
          Outcome.nil) := by
  unfold QueueSubscribe
  rw [connect_of_connected b c (by simp [hconn])]
  simp only [Client.callBroker, Client.emit, hconn]
  cases hb : b c.calls (BrokerCall.queueSubscribe h subscriber.Subject queueGroup opts) with
  | error e => simp [Except.isOk, Except.toBool]
  | ok n => simp [Except.isOk, Except.toBool]

/-- C4: on a connected, enabled client with connection `h` and for a subscriber
with subject `s` and name `n`: when the broker accepts the subscription with
handle `sub`, `Subscribe` returns no error and the registry afterwards is the
prior registry with the key `s-n` mapped to `sub` (that key holds `sub`, every
other key holds what it held); `QueueSubscribe` with queue group `q` does the
same under the key `s-q-n`; when the broker rejects the subscription, the
operation returns an error and the registry is unchanged. -/
theorem subscribe_registry (b : Broker) (subscriber : Subscriber) (q : String)
    (opts : List SubscriptionOption) (c : Client) (h : Conn)
    (hconn : c.conn = some h) (_henabled : c.config.Enabled = true) :
    (∀ sub, b c.calls (BrokerCall.subscribe h subscriber.Subject opts) = Except.ok sub →
      (Subscribe b subscriber opts c).2 = Outcome.nil ∧
      (Subscribe b subscriber opts c).1.subscriptions =
        c.subscriptions.insert (subscriber.Subject ++ "-" ++ subscriber.Name) (some sub) ∧
      (Subscribe b subscriber opts c).1.subscriptions.lookup
        (subscriber.Subject ++ "-" ++ subscriber.Name) = some (some sub) ∧
      ∀ k2, k2 ≠ subscriber.Subject ++ "-" ++ subscriber.Name →
        (Subscribe b subscriber opts c).1.subscriptions.lookup k2 = c.subscriptions.lookup k2) ∧
    (∀ msg, b c.calls (BrokerCall.subscribe h subscriber.Subject opts) = Except.error msg →
      (∃ e, (Subscribe b subscriber opts c).2 = Outcome.err e) ∧
      (Subscribe b subscriber opts c).1.subscriptions = c.subscriptions) ∧
    (∀ sub, b c.calls (BrokerCall.queueSubscribe h subscriber.Subject q opts) = Except.ok sub →
      (QueueSubscribe b subscriber q opts c).2 = Outcome.nil ∧
      (QueueSubscribe b subscriber q opts c).1.subscriptions =
        c.subscriptions.insert (subscriber.Subject ++ "-" ++ q ++ "-" ++ subscriber.Name)
          (some sub) ∧
      (QueueSubscribe b subscriber q opts c).1.subscriptions.lookup
        (subscriber.Subject ++ "-" ++ q ++ "-" ++ subscriber.Name) = some (some sub) ∧
      ∀ k2, k2 ≠ subscriber.Subject ++ "-" ++ q ++ "-" ++ subscriber.Name →
        (QueueSubscribe b subscriber q opts c).1.subscriptions.lookup k2 =
          c.subscriptions.lookup k2) ∧
    (∀ msg, b c.calls (BrokerCall.queueSubscribe h subscriber.Subject q opts) = Except.error msg →
      (∃ e, (QueueSubscribe b subscriber q opts c).2 = Outcome.err e) ∧
      (QueueSubscribe b subscriber q opts c).1.subscriptions = c.subscriptions) := by
  refine ⟨?_, ?_, ?_, ?_⟩
  · intro sub hb
    rw [subscribe_of_connected b subscriber opts c h hconn]
    simp only [hb, Client.setSub, Client.emit, Client.record]
    exact ⟨trivial, trivial, AList.lookup_insert _, fun k2 hk2 => AList.lookup_insert_ne hk2⟩
  · intro msg hb
    rw [subscribe_of_connected b subscriber opts c h hconn]
    simp only [hb]
    exact ⟨⟨_, rfl⟩, rfl⟩
  · intro sub hb
    rw [queueSubscribe_of_connected b subscriber q opts c h hconn]
    simp only [hb, Client.setSub, Client.emit, Client.record]
    exact ⟨trivial, trivial, AList.lookup_insert _, fun k2 hk2 => AList.lookup_insert_ne hk2⟩
  · intro msg hb
    rw [queueSubscribe_of_connected b subscriber q opts c h hconn]
    simp only [hb]
    exact ⟨⟨_, rfl⟩, rfl⟩

/-- Witness of C4: the sample subscriber on the sample client, with a broker that
accepts and with a broker that rejects. -/
theorem subscribe_registry_witness :
    ((Subscribe acceptAll sampleSubscriber [] sampleClient).2 = Outcome.nil ∧
      (Subscribe acceptAll sampleSubscriber [] sampleClient).1.subscriptions.lookup "s-n" =
        some (some 0)) ∧
    ((∃ e, (Subscribe rejectAll sampleSubscriber [] sampleClient).2 = Outcome.err e) ∧
      (Subscribe rejectAll sampleSubscriber [] sampleClient).1.subscriptions =
        sampleClient.subscriptions) ∧
    ((QueueSubscribe acceptAll sampleSubscriber "grp" [] sampleClient).2 = Outcome.nil ∧
      (QueueSubscribe acceptAll sampleSubscriber "grp" [] sampleClient).1.subscriptions.lookup
        "s-grp-n" = some (some 0)) ∧
    ((∃ e, (QueueSubscribe rejectAll sampleSubscriber "grp" [] sampleClient).2 = Outcome.err e) ∧
      (QueueSubscribe rejectAll sampleSubscriber "grp" [] sampleClient).1.subscriptions =
        sampleClient.subscriptions) :=
  ⟨⟨((subscribe_registry acceptAll sampleSubscriber "grp" [] sampleClient 1 rfl rfl).1 0 rfl).1,
     ((subscribe_registry acceptAll sampleSubscriber "grp" [] sampleClient 1 rfl rfl).1 0 rfl).2.2.1⟩,
   (subscribe_registry rejectAll sampleSubscriber "grp" [] sampleClient 1 rfl rfl).2.1 "down" rfl,
   ⟨((subscribe_registry acceptAll sampleSubscriber "grp" [] sampleClient 1 rfl rfl).2.2.1 0 rfl).1,
     ((subscribe_registry acceptAll sampleSubscriber "grp" [] sampleClient 1 rfl rfl).2.2.1 0
       rfl).2.2.1⟩,
   (subscribe_registry rejectAll sampleSubscriber "grp" [] sampleClient 1 rfl rfl).2.2.2 "down" rfl⟩

/-! ### The loop of `Unsubscribe("all")` -/

theorem unsubscribeAll_cons (b : Broker) (key : String) (rest : List String) (c : Client) :
    unsubscribeAll b (key :: rest) c =
      match c.subscriptions.lookup key with
      | some (some sub) =>
        match b c.calls (BrokerCall.unsubscribe sub) with
        | Except.error e =>
          (Client.record c (CallRecord.mk (BrokerCall.unsubscribe sub) false),
            some (Error.wrap "unsubscribe all failed" (Error.external e)))
        | Except.ok _ =>
          unsubscribeAll b rest
            (Client.setSub
              (Client.record c (CallRecord.mk (BrokerCall.unsubscribe sub) true))
              key none)
      | _ => unsubscribeAll b rest c := by
  rw [unsubscribeAll]
  cases hl : c.subscriptions.lookup key with
  | none => rfl
  | some v =>
    cases v with
    | none => rfl
    | some sub =>
      simp only [Client.callBroker]
      cases hb : b c.calls (BrokerCall.unsubscribe sub) with
      | error e => simp [Except.isOk, Except.toBool]
      | ok n => simp [Except.isOk, Except.toBool]

/-- What one run of the loop does to a client. -/
theorem unsubscribeAll_spec (b : Broker) (iter : List String) :
    ∀ c : Client,
      (unsubscribeAll b iter c).1.conn = c.conn ∧
      ∃ extra : List CallRecord,
        (unsubscribeAll b iter c).1.calls = c.calls ++ extra ∧
        (∀ k, (unsubscribeAll b iter c).1.subscriptions.lookup k = c.subscriptions.lookup k ∨
          ∃ sub, c.subscriptions.lookup k = some (some sub) ∧
            (unsubscribeAll b iter c).1.subscriptions.lookup k = some none ∧
            CallRecord.mk (BrokerCall.unsubscribe sub) true ∈ extra) ∧
        ((unsubscribeAll b iter c).2 = none →
          (∀ k ∈ iter, isLive (unsubscribeAll b iter c).1.subscriptions k = false) ∧
          ∀ r ∈ extra, r.ok = true) ∧
        (∀ e, (unsubscribeAll b iter c).2 = some e →
          ∃ k sub, k ∈ iter ∧ c.subscriptions.lookup k = some (some sub) ∧
            (unsubscribeAll b iter c).1.subscriptions.lookup k = some (some sub) ∧
            extra.getLast? = some (CallRecord.mk (BrokerCall.unsubscribe sub) false)) := by
  induction iter with
  | nil =>
    intro c
    refine ⟨rfl, [], by simp [unsubscribeAll], fun k => Or.inl rfl, ?_, ?_⟩
    · intro _
      exact ⟨by simp, by simp⟩
    · intro e he
      simp [unsubscribeAll] at he
  | cons key rest ih =>
    intro c
    rw [unsubscribeAll_cons]
    have skip : ∀ v, c.subscriptions.lookup key = v → isLive c.subscriptions key = false →
        (unsubscribeAll b rest c).1.conn = c.conn ∧
        ∃ extra : List CallRecord,
          (unsubscribeAll b rest c).1.calls = c.calls ++ extra ∧
          (∀ k, (unsubscribeAll b rest c).1.subscriptions.lookup k = c.subscriptions.lookup k ∨
            ∃ sub, c.subscriptions.lookup k = some (some sub) ∧
              (unsubscribeAll b rest c).1.subscriptions.lookup k = some none ∧
              CallRecord.mk (BrokerCall.unsubscribe sub) true ∈ extra) ∧
          ((unsubscribeAll b rest c).2 = none →
            (∀ k ∈ key :: rest, isLive (unsubscribeAll b rest c).1.subscriptions k = false) ∧
            ∀ r ∈ extra, r.ok = true) ∧
          (∀ e, (unsubscribeAll b rest c).2 = some e →
            ∃ k sub, k ∈ key :: rest ∧ c.subscriptions.lookup k = some (some sub) ∧
              (unsubscribeAll b rest c).1.subscriptions.lookup k = some (some sub) ∧
              extra.getLast? = some (CallRecord.mk (BrokerCall.unsubscribe sub) false)) := by
      intro v _ hdead
      obtain ⟨hconn, extra, hcalls, hlook, hnone, herr⟩ := ih c
      refine ⟨hconn, extra, hcalls, hlook, ?_, ?_⟩
      · intro hn
        refine ⟨?_, (hnone hn).2⟩
        intro k hk
        rcases List.mem_cons.1 hk with rfl | hk
        · rcases hlook k with h | ⟨sub, h1, _, _⟩
          · unfold isLive at hdead ⊢
            rw [h]; exact hdead
          · simp [isLive, h1] at hdead
        · exact (hnone hn).1 k hk
      · intro e he
        obtain ⟨k, sub, hk, h1, h2, h3⟩ := herr e he
        exact ⟨k, sub, List.mem_cons_of_mem _ hk, h1, h2, h3⟩
    cases hl : c.subscriptions.lookup key with
    | none => exact skip none hl (by simp [isLive, hl])
    | some v =>
      cases v with
      | none => exact skip (some none) hl (by simp [isLive, hl])
      | some sub =>
        dsimp only
        cases hb : b c.calls (BrokerCall.unsubscribe sub) with
        | error e =>
          dsimp only
          refine ⟨rfl, [CallRecord.mk (BrokerCall.unsubscribe sub) false], rfl,
            fun k => Or.inl rfl, ?_, ?_⟩
          · intro hn
            simp at hn
          · intro e2 _
            exact ⟨key, sub, List.mem_cons_self _ _, hl, hl, rfl⟩
        | ok n =>
          dsimp only
          obtain ⟨hconn, extra, hcalls, hlook, hnone, herr⟩ :=
            ih (Client.setSub
              (Client.record c (CallRecord.mk (BrokerCall.unsubscribe sub) true))
              key none)
          have hkey : (Client.setSub
              (Client.record c (CallRecord.mk (BrokerCall.unsubscribe sub) true))
              key none).subscriptions.lookup key = some none := AList.lookup_insert _
          have hother : ∀ k, k ≠ key → (Client.setSub
              (Client.record c (CallRecord.mk (BrokerCall.unsubscribe sub) true))
              key none).subscriptions.lookup k = c.subscriptions.lookup k :=
            fun k hk => AList.lookup_insert_ne hk
          refine ⟨hconn, CallRecord.mk (BrokerCall.unsubscribe sub) true :: extra, ?_, ?_, ?_, ?_⟩
          · rw [hcalls]
            simp [Client.setSub, Client.record]
          · intro k
            by_cases hk : k = key
            · subst hk
              right
              refine ⟨sub, hl, ?_, List.mem_cons_self _ _⟩
              rcases hlook k with h | ⟨s2, h1, _, _⟩
              · rw [h, hkey]
              · rw [hkey] at h1
                simp at h1
            · rcases hlook k with h | ⟨s2, h1, h2, h3⟩
              · left
                rw [h, hother k hk]
              · right
                exact ⟨s2, by rw [← hother k hk]; exact h1, h2, List.mem_cons_of_mem _ h3⟩
          · intro hn
            refine ⟨?_, ?_⟩
            · intro k hk
              rcases List.mem_cons.1 hk with rfl | hk
              · rcases hlook k with h | ⟨s2, h1, _, _⟩
                · simp [isLive, h, hkey]
                · rw [hkey] at h1
                  simp at h1
              · exact (hnone hn).1 k hk
            · intro r hr
              rcases List.mem_cons.1 hr with rfl | hr
              · rfl
              · exact (hnone hn).2 r hr
          · intro e he
            obtain ⟨k, s2, hk, h1, h2, h3⟩ := herr e he
            have hne : k ≠ key := by
              rintro rfl
              rw [hkey] at h1
              simp at h1
            refine ⟨k, s2, List.mem_cons_of_mem _ hk, by rw [← hother k hne]; exact h1, h2, ?_⟩
            cases extra with
            | nil => simp at h3
            | cons x xs => simpa using h3

/-- Where a failing run of the loop stops and what it leaves behind: the keys
enumerated before the failing one are cleared where they were live, after one
successful broker call each, and nothing else is touched. -/
theorem unsubscribeAll_stop (b : Broker) (iter : List String) :
    ∀ (c : Client) (e : Error), (unsubscribeAll b iter c).2 = some e →
      ∃ (pre : List String) (k : String) (sub : Subscription) (post : List String)
        (okCalls : List CallRecord),
        iter = pre ++ k :: post ∧ k ∉ pre ∧
        c.subscriptions.lookup k = some (some sub) ∧
        (unsubscribeAll b iter c).1.subscriptions.lookup k = some (some sub) ∧
        (unsubscribeAll b iter c).1.calls =
          c.calls ++ (okCalls ++ [CallRecord.mk (BrokerCall.unsubscribe sub) false]) ∧
        (∀ r ∈ okCalls, r.ok = true ∧
          ∃ k2 ∈ pre, ∃ s2, c.subscriptions.lookup k2 = some (some s2) ∧
            r.call = BrokerCall.unsubscribe s2) ∧
        (∀ k2 ∈ pre, ∀ s2, c.subscriptions.lookup k2 = some (some s2) →
          (unsubscribeAll b iter c).1.subscriptions.lookup k2 = some none ∧
          CallRecord.mk (BrokerCall.unsubscribe s2) true ∈ okCalls) ∧
        (∀ k2, (k2 ∉ pre ∨ isLive c.subscriptions k2 = false) →
          (unsubscribeAll b iter c).1.subscriptions.lookup k2 = c.subscriptions.lookup k2) := by
  induction iter with
  | nil =>
    intro c e he
    simp [unsubscribeAll] at he
  | cons key rest ih =>
    intro c e he
    rw [unsubscribeAll_cons] at he ⊢
    have skip : isLive c.subscriptions key = false →
        (unsubscribeAll b rest c).2 = some e →
        ∃ (pre : List String) (k : String) (sub : Subscription) (post : List String)
          (okCalls : List CallRecord),
          key :: rest = pre ++ k :: post ∧ k ∉ pre ∧
          c.subscriptions.lookup k = some (some sub) ∧
          (unsubscribeAll b rest c).1.subscriptions.lookup k = some (some sub) ∧
          (unsubscribeAll b rest c).1.calls =
            c.calls ++ (okCalls ++ [CallRecord.mk (BrokerCall.unsubscribe sub) false]) ∧
          (∀ r ∈ okCalls, r.ok = true ∧
            ∃ k2 ∈ pre, ∃ s2, c.subscriptions.lookup k2 = some (some s2) ∧
              r.call = BrokerCall.unsubscribe s2) ∧
          (∀ k2 ∈ pre, ∀ s2, c.subscriptions.lookup k2 = some (some s2) →
            (unsubscribeAll b rest c).1.subscriptions.lookup k2 = some none ∧
            CallRecord.mk (BrokerCall.unsubscribe s2) true ∈ okCalls) ∧
          (∀ k2, (k2 ∉ pre ∨ isLive c.subscriptions k2 = false) →
            (unsubscribeAll b rest c).1.subscriptions.lookup k2 =
              c.subscriptions.lookup k2) := by
      intro hdead he2
      obtain ⟨pre, k, sub, post, okCalls, hsplit, hnot, hk, hk2, hcalls, hok, hpre, hrest⟩ :=
        ih c e he2
      have hne : k ≠ key := by
        rintro rfl
        simp [isLive, hk] at hdead
      refine ⟨key :: pre, k, sub, post, okCalls, by rw [hsplit]; rfl, ?_, hk, hk2, hcalls,
        ?_, ?_, ?_⟩
      · simp only [List.mem_cons, not_or]
        exact ⟨hne, hnot⟩
      · intro r hr
        obtain ⟨h1, k2, hk2mem, s2, h2, h3⟩ := hok r hr
        exact ⟨h1, k2, List.mem_cons_of_mem _ hk2mem, s2, h2, h3⟩
      · intro k2 hk2mem s2 hs2
        rcases List.mem_cons.1 hk2mem with rfl | hmem
        · simp [isLive, hs2] at hdead
        · exact hpre k2 hmem s2 hs2
      · intro k2 h
        apply hrest
        rcases h with h | h
        · exact Or.inl (fun hmem => h (List.mem_cons_of_mem _ hmem))
        · exact Or.inr h
    cases hl : c.subscriptions.lookup key with
    | none =>
      rw [hl] at he
      exact skip (by simp [isLive, hl]) he
    | some v =>
      cases v with
      | none =>
        rw [hl] at he
        exact skip (by simp [isLive, hl]) he
      | some sub =>
        rw [hl] at he
        dsimp only at he ⊢
        cases hb : b c.calls (BrokerCall.unsubscribe sub) with
        | error msg =>
          dsimp only
          refine ⟨[], key, sub, rest, [], rfl, by simp, hl, hl, rfl, by simp, by simp,
            fun _ _ => rfl⟩
        | ok n =>
          rw [hb] at he
          dsimp only at he ⊢
          have hkey : (Client.setSub
              (Client.record c (CallRecord.mk (BrokerCall.unsubscribe sub) true))
              key none).subscriptions.lookup key = some none := AList.lookup_insert _
          have hother : ∀ k, k ≠ key → (Client.setSub
              (Client.record c (CallRecord.mk (BrokerCall.unsubscribe sub) true))
              key none).subscriptions.lookup k = c.subscriptions.lookup k :=
            fun k hk => AList.lookup_insert_ne hk
          obtain ⟨pre, k, s1, post, okCalls, hsplit, hnot, hk, hk2, hcalls, hok, hpre, hrest⟩ :=
            ih _ e he
          have hne : k ≠ key := by
            rintro rfl
            rw [hkey] at hk
            simp at hk
          refine ⟨key :: pre, k, s1, post,
            CallRecord.mk (BrokerCall.unsubscribe sub) true :: okCalls,
            by rw [hsplit]; rfl, ?_, by rw [← hother k hne]; exact hk, hk2, ?_, ?_, ?_, ?_⟩
          · simp only [List.mem_cons, not_or]
            exact ⟨hne, hnot⟩
          · rw [hcalls]
            simp [Client.setSub, Client.record]
          · intro r hr
            rcases List.mem_cons.1 hr with rfl | hr
            · exact ⟨rfl, key, List.mem_cons_self _ _, sub, hl, rfl⟩
            · obtain ⟨h1, k2, hk2mem, s2, h2, h3⟩ := hok r hr
              have hne2 : k2 ≠ key := by
                rintro rfl
                rw [hkey] at h2
                simp at h2
              exact ⟨h1, k2, List.mem_cons_of_mem _ hk2mem, s2,
                by rw [← hother k2 hne2]; exact h2, h3⟩
          · intro k2 hk2mem s2 hs2
            by_cases hk2key : k2 = key
            · subst hk2key
              rw [hl] at hs2
              have hs : s2 = sub := by
                simp only [Option.some.injEq] at hs2
                exact hs2.symm
              subst hs
              refine ⟨?_, List.mem_cons_self _ _⟩
              rw [hrest k2 (Or.inr (by simp [isLive, hkey])), hkey]
            · rcases List.mem_cons.1 hk2mem with h | hmem
              · exact absurd h hk2key
              · obtain ⟨h1, h2⟩ := hpre k2 hmem s2 (by rw [hother k2 hk2key]; exact hs2)
                exact ⟨h1, List.mem_cons_of_mem _ h2⟩
          · intro k2 h
            have hk2key : k2 ≠ key := by
              rcases h with h | h
              · exact fun heq => h (heq ▸ List.mem_cons_self _ _)
              · rintro rfl
                simp [isLive, hl] at h
            rw [← hother k2 hk2key]
            apply hrest
            rcases h with h | h
            · exact Or.inl (fun hmem => h (List.mem_cons_of_mem _ hmem))
            · right
              unfold isLive at h ⊢
              rw [hother k2 hk2key]
              exact h

theorem unsubscribeAll_of_accepting (b : Broker) (iter : List String)
    (hok : ∀ hist sub, (b hist (BrokerCall.unsubscribe sub)).isOk = true) :
    ∀ c : Client, (unsubscribeAll b iter c).2 = none := by
  induction iter with
  | nil => intro c; rfl
  | cons key rest ih =>
    intro c
    rw [unsubscribeAll_cons]
    cases hl : c.subscriptions.lookup key with
    | none => exact ih c
    | some v =>
      cases v with
      | none => exact ih c
      | some sub =>
        dsimp only
        have h := hok c.calls sub
        cases hb : b c.calls (BrokerCall.unsubscribe sub) with
        | error e => simp [hb, Except.isOk, Except.toBool] at h
        | ok n => exact ih _

theorem unsubscribe_all_of_connected (b : Broker) (iter : List String) (c : Client)
    (hconn : c.conn.isSome = true) :
    (Unsubscribe b iter "all" c).1 =
        (unsubscribeAll b iter ((c.emit Event.lock).emit Event.unlock)).1 ∧
    (Unsubscribe b iter "all" c).2 =
        match (unsubscribeAll b iter ((c.emit Event.lock).emit Event.unlock)).2 with
        | some e => Outcome.err e
        | none => Outcome.nil := by
  unfold Unsubscribe
  rw [connect_of_connected b c hconn]
  simp only [if_true]
  rcases hr : unsubscribeAll b iter ((c.emit Event.lock).emit Event.unlock) with ⟨c2, _ | e⟩
  · exact ⟨rfl, rfl⟩
  · exact ⟨rfl, rfl⟩

theorem not_isLive_iff (m : Registry) (k : String) :
    isLive m k = false ↔ m.lookup k = none ∨ m.lookup k = some none := by
  unfold isLive
  cases h : m.lookup k with
  | none => simp
  | some v => cases v <;> simp

/-- C2: on a connected, enabled client on which every broker-level unsubscribe
succeeds, `Unsubscribe("all")` returns no error, whatever the order `iter` in
which the keys are enumerated; afterwards every key that was in the registry is
still present and maps to nil, no key is added, and `Subscriptions()` is empty. -/
theorem unsubscribe_all_clears (b : Broker) (iter order : List String) (c : Client)
    (hconn : c.conn.isSome = true) (_henabled : c.config.Enabled = true)
    (hperm : iter.Perm c.subscriptions.keys)
    (hok : ∀ hist sub, (b hist (BrokerCall.unsubscribe sub)).isOk = true) :
    (Unsubscribe b iter "all" c).2 = Outcome.nil ∧
    (∀ k, k ∈ c.subscriptions.keys →
      (Unsubscribe b iter "all" c).1.subscriptions.lookup k = some none) ∧
    (∀ k, k ∈ (Unsubscribe b iter "all" c).1.subscriptions.keys → k ∈ c.subscriptions.keys) ∧
    Subscriptions order (Unsubscribe b iter "all" c).1 = [] := by
  obtain ⟨hstate, hout⟩ := unsubscribe_all_of_connected b iter c hconn
  have hnil := unsubscribeAll_of_accepting b iter hok ((c.emit Event.lock).emit Event.unlock)
  obtain ⟨_, extra, _, hlook, hnone, _⟩ :=
    unsubscribeAll_spec b iter ((c.emit Event.lock).emit Event.unlock)
  have hdead := (hnone hnil).1
  rw [hstate]
  have hsubs : ((c.emit Event.lock).emit Event.unlock).subscriptions = c.subscriptions := rfl
  rw [hsubs] at hlook
  have hcleared : ∀ k, k ∈ c.subscriptions.keys →
      (unsubscribeAll b iter ((c.emit Event.lock).emit Event.unlock)).1.subscriptions.lookup k =
        some none := by
    intro k hk
    rcases hlook k with h | ⟨sub, _, h2, _⟩
    · have hd := hdead k (hperm.mem_iff.2 hk)
      rw [not_isLive_iff, h] at hd
      rcases hd with hd | hd
      · exact absurd (AList.mem_keys.2 hk) (AList.lookup_eq_none.1 hd)
      · rw [h]; exact hd
    · exact h2
  have hkeys : ∀ k,
      k ∈ (unsubscribeAll b iter ((c.emit Event.lock).emit Event.unlock)).1.subscriptions.keys →
        k ∈ c.subscriptions.keys := by
    intro k hk
    have hk2 := AList.lookup_isSome.2 (AList.mem_keys.2 hk)
    refine AList.mem_keys.1 (AList.lookup_isSome.1 ?_)
    rcases hlook k with h | ⟨sub, h1, _, _⟩
    · rw [← h]; exact hk2
    · rw [h1]; rfl
  refine ⟨?_, hcleared, hkeys, ?_⟩
  · rw [hout, hnil]
  · rw [subscriptions_eq_filter, List.filter_eq_nil_iff]
    intro k _
    by_cases hk : k ∈ c.subscriptions.keys
    · simp [isLive, hcleared k hk]
    · have hk2 : (unsubscribeAll b iter
          ((c.emit Event.lock).emit Event.unlock)).1.subscriptions.lookup k = none := by
        rw [AList.lookup_eq_none]
        exact fun h => hk (hkeys k (AList.mem_keys.1 h))
      simp [isLive, hk2]

/-- Witness of C2: the sample client, its keys enumerated as `s-b`, `s-a`, `s-c`. -/
theorem unsubscribe_all_clears_witness :
    (Unsubscribe acceptAll ["s-b", "s-a", "s-c"] "all" sampleClient).2 = Outcome.nil ∧
    (∀ k, k ∈ sampleClient.subscriptions.keys →
      (Unsubscribe acceptAll ["s-b", "s-a", "s-c"] "all" sampleClient).1.subscriptions.lookup k =
        some none) ∧
    (∀ k, k ∈ (Unsubscribe acceptAll ["s-b", "s-a", "s-c"] "all"
        sampleClient).1.subscriptions.keys → k ∈ sampleClient.subscriptions.keys) ∧
    Subscriptions ["s-c", "s-b", "s-a"]
      (Unsubscribe acceptAll ["s-b", "s-a", "s-c"] "all" sampleClient).1 = [] :=
  unsubscribe_all_clears acceptAll ["s-b", "s-a", "s-c"] ["s-c", "s-b", "s-a"] sampleClient
    (by decide) (by decide) (by decide) (fun _ _ => rfl)

/-- C9: on a connected, enabled client, when some broker-level unsubscribe fails
during `Unsubscribe("all")` (whatever the enumeration order), the call returns
an error and stops at that entry without rollback: the key set is unchanged,
every entry is unchanged or was live and is now nil after a successful broker
unsubscribe of its handle, the entry whose unsubscribe failed is still live and
that failed call is the last broker call, and tombstoned entries stay
tombstoned.  More precisely the enumeration splits at the failing key `k`:
every broker call before the failed one succeeded and belongs to a live key
enumerated before `k`, every live key enumerated before `k` is nil afterwards
(its cleared state is kept, not rolled back), and every other entry is as it was. -/
theorem unsubscribe_all_failure (b : Broker) (iter : List String) (c : Client)
    (hconn : c.conn.isSome = true) (_henabled : c.config.Enabled = true)
    (hfail : ∃ sub, CallRecord.mk (BrokerCall.unsubscribe sub) false ∈
      newCalls c (Unsubscribe b iter "all" c).1) :
    (∃ e, (Unsubscribe b iter "all" c).2 = Outcome.err e) ∧
    (∀ k, k ∈ (Unsubscribe b iter "all" c).1.subscriptions.keys ↔ k ∈ c.subscriptions.keys) ∧
    (∀ k, (Unsubscribe b iter "all" c).1.subscriptions.lookup k = c.subscriptions.lookup k ∨
      ∃ sub, c.subscriptions.lookup k = some (some sub) ∧
        (Unsubscribe b iter "all" c).1.subscriptions.lookup k = some none ∧
        CallRecord.mk (BrokerCall.unsubscribe sub) true ∈
          newCalls c (Unsubscribe b iter "all" c).1) ∧
    (∃ k sub, c.subscriptions.lookup k = some (some sub) ∧
      (Unsubscribe b iter "all" c).1.subscriptions.lookup k = some (some sub) ∧
      (newCalls c (Unsubscribe b iter "all" c).1).getLast? =
        some (CallRecord.mk (BrokerCall.unsubscribe sub) false)) ∧
    (∀ k, c.subscriptions.lookup k = some none →
      (Unsubscribe b iter "all" c).1.subscriptions.lookup k = some none) ∧
    (∃ (pre : List String) (k : String) (sub : Subscription) (post : List String)
        (okCalls : List CallRecord),
      iter = pre ++ k :: post ∧ k ∉ pre ∧
      c.subscriptions.lookup k = some (some sub) ∧
      (Unsubscribe b iter "all" c).1.subscriptions.lookup k = some (some sub) ∧
      newCalls c (Unsubscribe b iter "all" c).1 =
        okCalls ++ [CallRecord.mk (BrokerCall.unsubscribe sub) false] ∧
      (∀ r ∈ okCalls, r.ok = true ∧
        ∃ k2 ∈ pre, ∃ s2, c.subscriptions.lookup k2 = some (some s2) ∧
          r.call = BrokerCall.unsubscribe s2) ∧
      (∀ k2 ∈ pre, ∀ s2, c.subscriptions.lookup k2 = some (some s2) →
        (Unsubscribe b iter "all" c).1.subscriptions.lookup k2 = some none ∧
        CallRecord.mk (BrokerCall.unsubscribe s2) true ∈ okCalls) ∧
      (∀ k2, (k2 ∉ pre ∨ isLive c.subscriptions k2 = false) →
        (Unsubscribe b iter "all" c).1.subscriptions.lookup k2 =
          c.subscriptions.lookup k2)) := by
  obtain ⟨hstate, hout⟩ := unsubscribe_all_of_connected b iter c hconn
  obtain ⟨_, extra, hcalls, hlook, hnone, herr⟩ :=
    unsubscribeAll_spec b iter ((c.emit Event.lock).emit Event.unlock)
  have hstop := unsubscribeAll_stop b iter ((c.emit Event.lock).emit Event.unlock)
  have hsubs : ((c.emit Event.lock).emit Event.unlock).subscriptions = c.subscriptions := rfl
  have hcalls0 : ((c.emit Event.lock).emit Event.unlock).calls = c.calls := rfl
  rw [hsubs] at hlook herr
  rw [hcalls0] at hcalls
  simp only [hsubs, hcalls0] at hstop
  have hnew : newCalls c (Unsubscribe b iter "all" c).1 = extra := by
    rw [newCalls, hstate, hcalls, List.drop_left]
  rw [hnew] at hfail ⊢
  rw [hstate]
  obtain ⟨sub0, hsub0⟩ := hfail
  cases hres : (unsubscribeAll b iter ((c.emit Event.lock).emit Event.unlock)).2 with
  | none =>
    have := (hnone hres).2 _ hsub0
    simp at this
  | some e =>
    refine ⟨⟨e, by rw [hout, hres]⟩, ?_, hlook, ?_, ?_, ?_⟩
    · intro k
      rw [← AList.mem_keys, ← AList.mem_keys, ← AList.lookup_isSome, ← AList.lookup_isSome]
      rcases hlook k with h | ⟨sub, h1, h2, _⟩
      · rw [h]
      · rw [h1, h2]; simp
    · obtain ⟨k, sub, _, h1, h2, h3⟩ := herr e hres
      exact ⟨k, sub, h1, h2, h3⟩
    · intro k hk
      rcases hlook k with h | ⟨sub, h1, _, _⟩
      · rw [h, hk]
      · rw [hk] at h1
        simp at h1
    · obtain ⟨pre, k, sub, post, okCalls, h1, h2, h3, h4, h5, h6, h7, h8⟩ := hstop e hres
      refine ⟨pre, k, sub, post, okCalls, h1, h2, h3, h4, ?_, h6, h7, h8⟩
      rw [hcalls] at h5
      exact List.append_cancel_left h5

/-- Witness of C9: the sample client with a broker that rejects the unsubscription
of the handle of `s-c`, the keys enumerated as `s-a`, `s-b`, `s-c`. -/
theorem unsubscribe_all_failure_witness :
    (∃ e, (Unsubscribe rejectEleven ["s-a", "s-b", "s-c"] "all" sampleClient).2 = Outcome.err e) ∧
    (∀ k, k ∈ (Unsubscribe rejectEleven ["s-a", "s-b", "s-c"] "all"
        sampleClient).1.subscriptions.keys ↔ k ∈ sampleClient.subscriptions.keys) ∧
    (∀ k, (Unsubscribe rejectEleven ["s-a", "s-b", "s-c"] "all"
          sampleClient).1.subscriptions.lookup k = sampleClient.subscriptions.lookup k ∨
      ∃ sub, sampleClient.subscriptions.lookup k = some (some sub) ∧
        (Unsubscribe rejectEleven ["s-a", "s-b", "s-c"] "all"
          sampleClient).1.subscriptions.lookup k = some none ∧
        CallRecord.mk (BrokerCall.unsubscribe sub) true ∈
          newCalls sampleClient
            (Unsubscribe rejectEleven ["s-a", "s-b", "s-c"] "all" sampleClient).1) ∧
    (∃ k sub, sampleClient.subscriptions.lookup k = some (some sub) ∧
      (Unsubscribe rejectEleven ["s-a", "s-b", "s-c"] "all"
        sampleClient).1.subscriptions.lookup k = some (some sub) ∧
      (newCalls sampleClient
          (Unsubscribe rejectEleven ["s-a", "s-b", "s-c"] "all" sampleClient).1).getLast? =
        some (CallRecord.mk (BrokerCall.unsubscribe sub) false)) ∧
    (∀ k, sampleClient.subscriptions.lookup k = some none →
      (Unsubscribe rejectEleven ["s-a", "s-b", "s-c"] "all"
        sampleClient).1.subscriptions.lookup k = some none) ∧
    (∃ (pre : List String) (k : String) (sub : Subscription) (post : List String)
        (okCalls : List CallRecord),
      ["s-a", "s-b", "s-c"] = pre ++ k :: post ∧ k ∉ pre ∧
      sampleClient.subscriptions.lookup k = some (some sub) ∧
      (Unsubscribe rejectEleven ["s-a", "s-b", "s-c"] "all"
        sampleClient).1.subscriptions.lookup k = some (some sub) ∧
      newCalls sampleClient
          (Unsubscribe rejectEleven ["s-a", "s-b", "s-c"] "all" sampleClient).1 =
        okCalls ++ [CallRecord.mk (BrokerCall.unsubscribe sub) false] ∧
      (∀ r ∈ okCalls, r.ok = true ∧
        ∃ k2 ∈ pre, ∃ s2, sampleClient.subscriptions.lookup k2 = some (some s2) ∧
          r.call = BrokerCall.unsubscribe s2) ∧
      (∀ k2 ∈ pre, ∀ s2, sampleClient.subscriptions.lookup k2 = some (some s2) →
        (Unsubscribe rejectEleven ["s-a", "s-b", "s-c"] "all"
          sampleClient).1.subscriptions.lookup k2 = some none ∧
        CallRecord.mk (BrokerCall.unsubscribe s2) true ∈ okCalls) ∧
      (∀ k2, (k2 ∉ pre ∨ isLive sampleClient.subscriptions k2 = false) →
        (Unsubscribe rejectEleven ["s-a", "s-b", "s-c"] "all"
          sampleClient).1.subscriptions.lookup k2 =
          sampleClient.subscriptions.lookup k2)) :=
  unsubscribe_all_failure rejectEleven ["s-a", "s-b", "s-c"] sampleClient
    (by decide) (by decide) ⟨11, by decide⟩

/-! ### `Subscriptions` -/

theorem lookup_of_mem_entries (m : Registry) (e : Sigma (fun _ : String => Option Subscription))
    (he : e ∈ m.entries) : m.lookup e.1 = some e.2 := by
  have h : e.2 ∈ m.lookup e.1 := AList.mem_lookup_iff.2 (by simpa using he)
  exact h

theorem length_filter_isLive_keys (m : Registry) :
    (m.keys.filter (isLive m)).length = liveCount m := by
  unfold liveCount AList.keys List.keys
  rw [List.filter_map, List.length_map]
  congr 1
  apply List.filter_congr
  intro e he
  have hl := lookup_of_mem_entries m e he
  simp only [Function.comp, isLive, hl]
  cases e.2 <;> rfl

theorem subscriptions_of_registry (iter : List String) (c : Client)
    (hperm : iter.Perm c.subscriptions.keys) :
    (∀ k, k ∈ Subscriptions iter c ↔ ∃ s, c.subscriptions.lookup k = some (some s)) ∧
    (Subscriptions iter c).Nodup ∧
    (Subscriptions iter c).length = liveCount c.subscriptions := by
  refine ⟨?_, ?_, ?_⟩
  · intro k
    rw [mem_subscriptions, isLive_iff]
    constructor
    · exact fun h => h.2
    · rintro ⟨s, hs⟩
      refine ⟨hperm.mem_iff.2 (AList.mem_keys.1 (AList.lookup_isSome.1 ?_)), s, hs⟩
      rw [hs]; rfl
  · rw [subscriptions_eq_filter]
    exact (hperm.nodup_iff.2 c.subscriptions.keys_nodup).filter _
  · rw [subscriptions_eq_filter, (hperm.filter _).length_eq]
    exact length_filter_isLive_keys _

/-- C5: after any sequence of `Subscribe`, `QueueSubscribe`, `Unsubscribe` and
`Close` calls on any client (the empty sequence included, so for every registry
state), and whatever the order `iter` in which the keys are enumerated,
`Subscriptions()` holds exactly the keys whose value is not nil, each once, and
its length is the number of live entries. -/
theorem subscriptions_exact (b : Broker) (ops : List Op) (c : Client) (iter : List String)
    (hperm : iter.Perm (run b ops c).1.subscriptions.keys) :
    (∀ k, k ∈ Subscriptions iter (run b ops c).1 ↔
      ∃ s, (run b ops c).1.subscriptions.lookup k = some (some s)) ∧
    (Subscriptions iter (run b ops c).1).Nodup ∧
    (Subscriptions iter (run b ops c).1).length = liveCount (run b ops c).1.subscriptions :=
  subscriptions_of_registry iter (run b ops c).1 hperm

/-- Witness of C5: the sample client after a `Subscribe` and an `Unsubscribe("s-a")`. -/
theorem subscriptions_exact_witness :
    (∀ k, k ∈ Subscriptions ["s-b", "s-c", "s-n", "s-a"]
        (run acceptAll [Op.subscribe sampleSubscriber [], Op.unsubscribe [] "s-a"]
          sampleClient).1 ↔
      ∃ s, (run acceptAll [Op.subscribe sampleSubscriber [], Op.unsubscribe [] "s-a"]
          sampleClient).1.subscriptions.lookup k = some (some s)) ∧
    (Subscriptions ["s-b", "s-c", "s-n", "s-a"]
      (run acceptAll [Op.subscribe sampleSubscriber [], Op.unsubscribe [] "s-a"]
        sampleClient).1).Nodup ∧
    (Subscriptions ["s-b", "s-c", "s-n", "s-a"]
      (run acceptAll [Op.subscribe sampleSubscriber [], Op.unsubscribe [] "s-a"]
        sampleClient).1).length =
      liveCount (run acceptAll [Op.subscribe sampleSubscriber [], Op.unsubscribe [] "s-a"]
        sampleClient).1.subscriptions :=
  subscriptions_exact acceptAll [Op.subscribe sampleSubscriber [], Op.unsubscribe [] "s-a"]
    sampleClient ["s-b", "s-c", "s-n", "s-a"] (by decide)

/-! ### Disabled clients -/

theorem step_of_inert (b : Broker) (op : Op) (c : Client) (h : Inert c) :
    (step b op c).2 = Outcome.nil ∧ Inert (step b op c).1 := by
  obtain ⟨hconn, hdis, hsub, hcalls⟩ := h
  cases op with
  | subscribe subscriber opts =>
    simp only [step, Subscribe, connect_of_disabled b c hconn hdis, Error.isNotEnabled, if_true]
    exact ⟨trivial, hconn, hdis, hsub, hcalls⟩
  | queueSubscribe subscriber q opts =>
    simp only [step, QueueSubscribe, connect_of_disabled b c hconn hdis, Error.isNotEnabled,
      if_true]
    exact ⟨trivial, hconn, hdis, hsub, hcalls⟩
  | unsubscribe iter k =>
    simp only [step, Unsubscribe, connect_of_disabled b c hconn hdis, Error.isNotEnabled, if_true]
    exact ⟨trivial, hconn, hdis, hsub, hcalls⟩
  | close =>
    simp only [step, Close, hconn]
    exact ⟨trivial, hconn, hdis, hsub, hcalls⟩

theorem run_of_inert (b : Broker) (ops : List Op) :
    ∀ c : Client, Inert c →
      (∀ o ∈ (run b ops c).2, o = Outcome.nil) ∧ (run b ops c).2.length = ops.length ∧
      Inert (run b ops c).1 := by
  induction ops with
  | nil =>
    intro c h
    exact ⟨by simp [run], rfl, h⟩
  | cons op rest ih =>
    intro c h
    obtain ⟨hout, hinert⟩ := step_of_inert b op c h
    obtain ⟨h1, h2, h3⟩ := ih (step b op c).1 hinert
    refine ⟨?_, ?_, h3⟩
    · intro o ho
      simp only [run, List.mem_cons] at ho
      rcases ho with rfl | ho
      · exact hout
      · exact h1 o ho
    · simp only [run, List.length_cons, h2]

/-- C6: `New` with `Enabled = false` succeeds without any broker call, and after
any sequence of `Subscribe`, `QueueSubscribe`, `Unsubscribe` (with any
argument) and `Close` calls on the client it returns, every call has returned
no error, no broker call has been made, the connection handle is nil and the
registry is empty. -/
theorem disabled_client_inert (b : Broker) (host : Host) (config : Config) (wrapID : Bool)
    (ops : List Op) (hdis : config.Enabled = false) :
    ∃ c, New b host config wrapID = Except.ok c ∧
      c.calls = [] ∧ c.conn = none ∧ c.subscriptions = ∅ ∧
      (∀ o ∈ (run b ops c).2, o = Outcome.nil) ∧
      (run b ops c).2.length = ops.length ∧
      (run b ops c).1.calls = [] ∧
      (run b ops c).1.conn = none ∧
      (run b ops c).1.subscriptions = ∅ := by
  refine ⟨_, by simp [New, hdis]; rfl, rfl, rfl, rfl, ?_⟩
  obtain ⟨h1, h2, h3, _, h5, h6⟩ := run_of_inert b ops
    { conn := none, subscriptions := ∅,
      clientID := if wrapID then wrapClientID host config.ClientID else config.ClientID,
      config := config, calls := [], trace := [] } ⟨rfl, hdis, rfl, rfl⟩
  exact ⟨h1, h2, h6, h3, h5⟩

/-- Witness of C6: a disabled client driven through all four operations. -/
theorem disabled_client_inert_witness :
    ∃ c, New rejectAll sampleHost disabledConfig true = Except.ok c ∧
      c.calls = [] ∧ c.conn = none ∧ c.subscriptions = ∅ ∧
      (∀ o ∈ (run rejectAll
          [Op.subscribe sampleSubscriber [], Op.queueSubscribe sampleSubscriber "grp" [],
            Op.unsubscribe [] "unknown", Op.unsubscribe [] "all", Op.close] c).2,
        o = Outcome.nil) ∧
      (run rejectAll
          [Op.subscribe sampleSubscriber [], Op.queueSubscribe sampleSubscriber "grp" [],
            Op.unsubscribe [] "unknown", Op.unsubscribe [] "all", Op.close] c).2.length = 5 ∧
      (run rejectAll
          [Op.subscribe sampleSubscriber [], Op.queueSubscribe sampleSubscriber "grp" [],
            Op.unsubscribe [] "unknown", Op.unsubscribe [] "all", Op.close] c).1.calls = [] ∧
      (run rejectAll
          [Op.subscribe sampleSubscriber [], Op.queueSubscribe sampleSubscriber "grp" [],
            Op.unsubscribe [] "unknown", Op.unsubscribe [] "all", Op.close] c).1.conn = none ∧
      (run rejectAll
          [Op.subscribe sampleSubscriber [], Op.queueSubscribe sampleSubscriber "grp" [],
            Op.unsubscribe [] "unknown", Op.unsubscribe [] "all", Op.close] c).1.subscriptions = ∅ :=
  disabled_client_inert rejectAll sampleHost disabledConfig true
    [Op.subscribe sampleSubscriber [], Op.queueSubscribe sampleSubscriber "grp" [],
      Op.unsubscribe [] "unknown", Op.unsubscribe [] "all", Op.close] rfl

/-! ### Reconnection -/

theorem emit_trace (c : Client) (e : Event) : (c.emit e).trace = c.trace ++ [e] := rfl

theorem connectEvents_append (es fs : List Event) :
    connectEvents (es ++ fs) = connectEvents es + connectEvents fs := by
  simp [connectEvents, List.filter_append]

theorem connectAttempts_append (ks ls : List CallRecord) :
    connectAttempts (ks ++ ls) = connectAttempts ks + connectAttempts ls := by
  simp [connectAttempts, List.filter_append]

theorem retryLoop_all_fail (f : Client → Client × Option Error) (P : Client → Prop)
    (μ ν : Client → Nat) (d : Nat)
    (hf : ∀ c, P c → (∃ e, (f c).2 = some e) ∧ P (f c).1 ∧
      μ (f c).1 = μ c + d ∧ ν (f c).1 = ν c + d) :
    ∀ (n : Nat) (last : Error) (c : Client), P c →
      (∃ e, (retryLoop f n last c).2 = some e) ∧ P (retryLoop f n last c).1 ∧
      μ (retryLoop f n last c).1 = μ c + n * d ∧ ν (retryLoop f n last c).1 = ν c + n * d := by
  intro n
  induction n with
  | zero =>
    intro last c hc
    exact ⟨⟨last, rfl⟩, hc, by simp [retryLoop], by simp [retryLoop]⟩
  | succ n ih =>
    intro last c hc
    obtain ⟨⟨e, he⟩, hP, hμ, hν⟩ := hf c hc
    have hstep : retryLoop f (n + 1) last c = retryLoop f n (Error.retryFailed e) (f c).1 := by
      rw [retryLoop]
      rcases hfc : f c with ⟨c1, o⟩
      rw [hfc] at he
      simp only at he
      subst he
      rfl
    obtain ⟨h1, h2, h3, h4⟩ := ih (Error.retryFailed e) (f c).1 hP
    rw [hstep]
    refine ⟨h1, h2, ?_, ?_⟩
    · rw [h3, hμ]; ring
    · rw [h4, hν]; ring

theorem connectAttempt_rejected (b : Broker) (hrej : RejectsConnect b) (config : Config)
    (trace : List Event) (calls : List CallRecord) (c : Client)
    (hc : Disconnected config trace calls c) :
    (∃ e, (connectAttempt b c).2 = some e) ∧
    Disconnected config trace calls (connectAttempt b c).1 ∧
    connectEvents (connectAttempt b c).1.trace = connectEvents c.trace + 1 ∧
    connectAttempts (connectAttempt b c).1.calls = connectAttempts c.calls + 1 := by
  obtain ⟨_, hcfg, ⟨es, hes⟩, ⟨ks, hks⟩⟩ := hc
  have h := hrej c.calls c.config.ClusterID c.clientID c.config.NatsStreamingURL
  unfold connectAttempt
  simp only [Client.callBroker]
  cases hb : b c.calls
      (BrokerCall.connect c.config.ClusterID c.clientID c.config.NatsStreamingURL) with
  | ok n => simp [hb, Except.isOk, Except.toBool] at h
  | error e =>
    simp only [Client.setConn, Client.record, Except.isOk, Except.toBool]
    refine ⟨⟨_, rfl⟩, ⟨rfl, hcfg,
      ⟨es ++ [Event.call (CallRecord.mk (BrokerCall.connect c.config.ClusterID c.clientID
          c.config.NatsStreamingURL) false), Event.writeConn none],
        by rw [hes]; simp only [List.append_assoc]; rfl⟩,
      ⟨ks ++ [CallRecord.mk (BrokerCall.connect c.config.ClusterID c.clientID
          c.config.NatsStreamingURL) false],
        by rw [hks]; simp only [List.append_assoc]⟩⟩, ?_, ?_⟩
    · simp [connectEvents, List.filter_append, List.filter_cons, Event.isConnectAttempt,
        BrokerCall.isConnect]
    · simp [connectAttempts, List.filter_append, List.filter_cons, BrokerCall.isConnect]

theorem connect_rejected (b : Broker) (hrej : RejectsConnect b) (config : Config)
    (henabled : config.Enabled = true)
    (trace : List Event) (calls : List CallRecord) (c : Client)
    (hc : Disconnected config trace calls c) :
    (∃ e, (connect b c).2 = some e) ∧
    Disconnected config trace calls (connect b c).1 ∧
    connectEvents (connect b c).1.trace = connectEvents c.trace + config.ConnectRetry.Attempts ∧
    connectAttempts (connect b c).1.calls =
      connectAttempts c.calls + config.ConnectRetry.Attempts := by
  have hlock : Disconnected config trace calls (c.emit Event.lock) := by
    obtain ⟨h1, h2, ⟨es, hes⟩, h4⟩ := hc
    exact ⟨h1, h2, ⟨es ++ [Event.lock], by simp [Client.emit, hes]⟩, h4⟩
  obtain ⟨⟨e, he⟩, hP, hμ, hν⟩ :=
    retryLoop_all_fail (connectAttempt b) (Disconnected config trace calls)
      (fun c => connectEvents c.trace) (fun c => connectAttempts c.calls) 1
      (connectAttempt_rejected b hrej config trace calls)
      config.ConnectRetry.Attempts Error.retryNoAttempt (c.emit Event.lock) hlock
  have hconn : (c.emit Event.lock).conn.isSome = false := by
    simp [Client.emit, hc.1]
  have hen : (c.emit Event.lock).config.Enabled = true := by
    simp [Client.emit, hc.2.1, henabled]
  have hcfg : (c.emit Event.lock).config.ConnectRetry.Attempts =
      config.ConnectRetry.Attempts := by
    simp [Client.emit, hc.2.1]
  have hshape : connect b c =
      ((retryLoop (connectAttempt b) config.ConnectRetry.Attempts Error.retryNoAttempt
          (c.emit Event.lock)).1.emit Event.unlock,
        some (Error.wrap "all retries failed to connect" e)) := by
    unfold connect
    simp only [hconn, hen, retryDo, hcfg]
    rcases hr : retryLoop (connectAttempt b) config.ConnectRetry.Attempts Error.retryNoAttempt
        (c.emit Event.lock) with ⟨c1, o⟩
    rw [hr] at he
    simp only at he
    subst he
    simp
  rw [hshape]
  obtain ⟨h1, h2, ⟨es, hes⟩, h4⟩ := hP
  refine ⟨⟨_, rfl⟩, ⟨h1, h2, ⟨es ++ [Event.unlock], ?_⟩, h4⟩, ?_, ?_⟩
  · rw [emit_trace, hes, List.append_assoc]
  · simp only [Client.emit] at hμ ⊢
    simp only [connectEvents, List.filter_append, List.length_append] at hμ ⊢
    rw [hμ]
    simp [List.filter_cons, Event.isConnectAttempt, Nat.add_comm]
  · simp only [Client.emit] at hν ⊢
    rw [hν]
    simp [Nat.add_comm]

/-- C7, as the code has it: after a connection loss on an enabled client with a
reconnect callback, with at least one attempt in each `Retry` and a broker that
rejects every connection attempt, the handler first clears the connection
handle, then makes exactly `ReconnectRetry.Attempts * ConnectRetry.Attempts`
broker connection attempts (each of the `ReconnectRetry.Attempts` calls of
`connect` runs the connect retry loop), and ends in `Fatal` with the handle nil.
The two bounds on the attempts keep the statement within what the claim covers. -/
theorem reconnect_attempts (b : Broker) (reconnectFunc : Client → Client × Option Error)
    (c : Client) (henabled : c.config.Enabled = true)
    (_hconnect : 1 ≤ c.config.ConnectRetry.Attempts)
    (_hreconnect : 1 ≤ c.config.ReconnectRetry.Attempts)
    (hrej : RejectsConnect b) :
    (∃ msg, (connectionLostHandler b (some reconnectFunc) c).2 = HandlerResult.fatal msg) ∧
    (connectionLostHandler b (some reconnectFunc) c).1.conn = none ∧
    (∃ es, newEvents c (connectionLostHandler b (some reconnectFunc) c).1 =
        Event.writeConn none :: es ∧
      connectEvents es = c.config.ReconnectRetry.Attempts * c.config.ConnectRetry.Attempts) ∧
    connectAttempts (newCalls c (connectionLostHandler b (some reconnectFunc) c).1) =
      c.config.ReconnectRetry.Attempts * c.config.ConnectRetry.Attempts := by
  have hstart : Disconnected c.config (c.trace ++ [Event.writeConn none]) c.calls
      (c.setConn none) :=
    ⟨rfl, rfl, ⟨[], by simp [Client.setConn]⟩, ⟨[], by simp [Client.setConn]⟩⟩
  obtain ⟨⟨e, he⟩, ⟨hconn, _, ⟨es, hes⟩, ⟨ks, hks⟩⟩, hμ, hν⟩ :=
    retryLoop_all_fail (connect b)
      (Disconnected c.config (c.trace ++ [Event.writeConn none]) c.calls)
      (fun c => connectEvents c.trace) (fun c => connectAttempts c.calls)
      c.config.ConnectRetry.Attempts
      (connect_rejected b hrej c.config henabled (c.trace ++ [Event.writeConn none]) c.calls)
      c.config.ReconnectRetry.Attempts Error.retryNoAttempt (c.setConn none) hstart
  have hshape : connectionLostHandler b (some reconnectFunc) c =
      ((retryLoop (connect b) c.config.ReconnectRetry.Attempts Error.retryNoAttempt
          (c.setConn none)).1,
        HandlerResult.fatal "All attempts to reconnect to the streaming server failed") := by
    unfold connectionLostHandler
    have hcfg : (c.setConn none).config = c.config := rfl
    simp only [retryDo, hcfg]
    rcases hr : retryLoop (connect b) c.config.ReconnectRetry.Attempts Error.retryNoAttempt
        (c.setConn none) with ⟨c1, o⟩
    rw [hr] at he
    simp only at he
    subst he
    rfl
  rw [hshape]
  refine ⟨⟨_, rfl⟩, hconn, ⟨es, ?_, ?_⟩, ?_⟩
  · simp only [newEvents, hes, List.append_assoc, List.drop_left]
    rfl
  · have ht : (c.setConn none).trace = c.trace ++ [Event.writeConn none] := rfl
    simp only [hes, ht, connectEvents_append] at hμ
    exact Nat.add_left_cancel hμ
  · have hk : (c.setConn none).calls = c.calls := rfl
    simp only [newCalls, hks, List.drop_left]
    simp only [hks, hk, connectAttempts_append] at hν
    exact Nat.add_left_cancel hν

/-- Witness of C7 as the code has it: the sample client with a broker that rejects every call. -/
theorem reconnect_attempts_witness :
    (∃ msg, (connectionLostHandler rejectAll (some noopReconnect) sampleClient).2 =
      HandlerResult.fatal msg) ∧
    (connectionLostHandler rejectAll (some noopReconnect) sampleClient).1.conn = none ∧
    (∃ es, newEvents sampleClient
          (connectionLostHandler rejectAll (some noopReconnect) sampleClient).1 =
        Event.writeConn none :: es ∧
      connectEvents es = sampleClient.config.ReconnectRetry.Attempts *
        sampleClient.config.ConnectRetry.Attempts) ∧
    connectAttempts (newCalls sampleClient
        (connectionLostHandler rejectAll (some noopReconnect) sampleClient).1) =
      sampleClient.config.ReconnectRetry.Attempts * sampleClient.config.ConnectRetry.Attempts :=
  reconnect_attempts rejectAll noopReconnect sampleClient (by decide) (by decide) (by decide)
    (fun _ _ _ _ => rfl)

/-- Counterexample to C7 as stated: with two connect attempts and one reconnect
attempt configured and a broker that rejects every connection attempt, the
handler ends in `Fatal` after two broker connection attempts, not one. -/
theorem reconnect_attempts_counterexample :
    sampleClient.config.Enabled = true ∧
    1 ≤ sampleClient.config.ConnectRetry.Attempts ∧
    sampleClient.config.ReconnectRetry.Attempts = 1 ∧
    RejectsConnect rejectAll ∧
    (connectionLostHandler rejectAll (some noopReconnect) sampleClient).2 =
      HandlerResult.fatal "All attempts to reconnect to the streaming server failed" ∧
    connectAttempts (newCalls sampleClient
        (connectionLostHandler rejectAll (some noopReconnect) sampleClient).1) = 2 ∧
    connectAttempts (newCalls sampleClient
        (connectionLostHandler rejectAll (some noopReconnect) sampleClient).1) ≠
      sampleClient.config.ReconnectRetry.Attempts :=
  ⟨by decide, by decide, by decide, fun _ _ _ _ => rfl, by decide, by decide, by decide⟩

end Stanclient


/-! ## The lock -/

namespace Stanclient

theorem lockStates_plain (held : Bool) (es rest : List Event)
    (h : ∀ e ∈ es, e.isLockOp = false) :
    lockStates held (es ++ rest) = es.map (fun e => (e, held)) ++ lockStates held rest := by
  induction es with
  | nil => rfl
  | cons e es ih =>
    have hrest := ih (fun x hx => h x (List.mem_cons_of_mem _ hx))
    have he := h e (List.mem_cons_self _ _)
    cases e with
    | lock => simp [Event.isLockOp] at he
    | unlock => simp [Event.isLockOp] at he
    | writeConn v => simp [lockStates, hrest]
    | writeSub k v => simp [lockStates, hrest]
    | call r => simp [lockStates, hrest]

theorem retryLoop_connectAttempt_trace (b : Broker) :
    ∀ (n : Nat) (last : Error) (c : Client),
      ∃ es, (retryLoop (connectAttempt b) n last c).1.trace = c.trace ++ es ∧ ConnPhase es := by
  intro n
  induction n with
  | zero =>
    intro last c
    exact ⟨[], by simp [retryLoop], by simp [ConnPhase]⟩
  | succ n ih =>
    intro last c
    have hstep : ∃ r v, (connectAttempt b c).1.trace =
        c.trace ++ [Event.call r, Event.writeConn v] := by
      unfold connectAttempt
      simp only [Client.callBroker]
      cases hb : b c.calls
          (BrokerCall.connect c.config.ClusterID c.clientID c.config.NatsStreamingURL) with
      | error e =>
        refine ⟨CallRecord.mk (BrokerCall.connect c.config.ClusterID c.clientID
          c.config.NatsStreamingURL) false, none, ?_⟩
        simp [Client.setConn, Client.record, Except.isOk, Except.toBool]
      | ok h =>
        refine ⟨CallRecord.mk (BrokerCall.connect c.config.ClusterID c.clientID
          c.config.NatsStreamingURL) true, some h, ?_⟩
        simp [Client.setConn, Client.record, Except.isOk, Except.toBool]
    obtain ⟨r, v, hrv⟩ := hstep
    have hphase : ∀ fs, ConnPhase fs → ConnPhase ([Event.call r, Event.writeConn v] ++ fs) := by
      intro fs hfs e he
      simp only [List.cons_append, List.nil_append, List.mem_cons] at he
      rcases he with rfl | rfl | he
      · exact ⟨rfl, rfl⟩
      · exact ⟨rfl, rfl⟩
      · exact hfs e he
    rw [retryLoop]
    rcases hfc : connectAttempt b c with ⟨c1, o⟩
    rw [hfc] at hrv
    cases o with
    | none => exact ⟨_, hrv, by simpa using hphase [] (by simp [ConnPhase])⟩
    | some e =>
      obtain ⟨fs, hfs, hphase2⟩ := ih (Error.retryFailed e) c1
      refine ⟨[Event.call r, Event.writeConn v] ++ fs, ?_, hphase fs hphase2⟩
      simp only at hrv ⊢
      rw [hfs, hrv, List.append_assoc]

theorem connect_trace (b : Broker) (c : Client) :
    ∃ es, (connect b c).1.trace = c.trace ++ Event.lock :: (es ++ [Event.unlock]) ∧
      ConnPhase es := by
  unfold connect
  have hc : (c.emit Event.lock).conn = c.conn := rfl
  have hcfg : (c.emit Event.lock).config = c.config := rfl
  simp only [hc, hcfg]
  by_cases hconn : c.conn.isSome = true
  · exact ⟨[], by simp [hconn, emit_trace], by simp [ConnPhase]⟩
  · by_cases hen : c.config.Enabled = true
    · obtain ⟨es, hes, hphase⟩ := retryLoop_connectAttempt_trace b
        c.config.ConnectRetry.Attempts Error.retryNoAttempt (c.emit Event.lock)
      refine ⟨es, ?_, hphase⟩
      simp only [hconn, hen, retryDo]
      rcases hr : retryLoop (connectAttempt b) c.config.ConnectRetry.Attempts
          Error.retryNoAttempt (c.emit Event.lock) with ⟨c1, o⟩
      rw [hr] at hes
      cases o <;> simp [emit_trace] at hes ⊢ <;> rw [hes] <;> simp
    · exact ⟨[], by simp [hconn, hen, emit_trace], by simp [ConnPhase]⟩

theorem unsubscribeAll_trace (b : Broker) (iter : List String) :
    ∀ c : Client, ∃ ss, (unsubscribeAll b iter c).1.trace = c.trace ++ ss ∧ SubPhase ss := by
  induction iter with
  | nil =>
    intro c
    exact ⟨[], by simp [unsubscribeAll], by simp [SubPhase]⟩
  | cons key rest ih =>
    intro c
    rw [unsubscribeAll_cons]
    cases hl : c.subscriptions.lookup key with
    | none => exact ih c
    | some v =>
      cases v with
      | none => exact ih c
      | some sub =>
        dsimp only
        cases hb : b c.calls (BrokerCall.unsubscribe sub) with
        | error e =>
          refine ⟨[Event.call (CallRecord.mk (BrokerCall.unsubscribe sub) false)], rfl, ?_⟩
          intro e he
          simp only [List.mem_singleton] at he
          subst he
          exact ⟨rfl, rfl⟩
        | ok n =>
          dsimp only
          obtain ⟨ss, hss, hphase⟩ := ih (Client.setSub
            (Client.record c (CallRecord.mk (BrokerCall.unsubscribe sub) true)) key none)
          refine ⟨[Event.call (CallRecord.mk (BrokerCall.unsubscribe sub) true),
            Event.writeSub key none] ++ ss, ?_, ?_⟩
          · rw [hss]
            simp [Client.setSub, Client.record]
          · intro e he
            simp only [List.cons_append, List.nil_append, List.mem_cons] at he
            rcases he with rfl | rfl | he
            · exact ⟨rfl, rfl⟩
            · exact ⟨rfl, rfl⟩
            · exact hphase e he

theorem subPhase_nil : SubPhase [] := by
  intro e he
  simp at he

theorem subPhase_call (r : CallRecord) : SubPhase [Event.call r] := by
  intro e he
  simp only [List.mem_singleton] at he
  subst he
  exact ⟨rfl, rfl⟩

theorem subPhase_call_write (r : CallRecord) (k : String) (v : Option Subscription) :
    SubPhase [Event.call r, Event.writeSub k v] := by
  intro e he
  simp only [List.mem_cons, List.mem_singleton, List.not_mem_nil, or_false] at he
  rcases he with rfl | rfl
  · exact ⟨rfl, rfl⟩
  · exact ⟨rfl, rfl⟩

theorem subscribe_trace (b : Broker) (subscriber : Subscriber) (opts : List SubscriptionOption)
    (c : Client) :
    ∃ ss, (Subscribe b subscriber opts c).1.trace = (connect b c).1.trace ++ ss ∧ SubPhase ss := by
  unfold Subscribe
  rcases hc : connect b c with ⟨c1, o⟩
  cases o with
  | some e =>
    refine ⟨[], ?_, subPhase_nil⟩
    dsimp only
    split <;> simp
  | none =>
    dsimp only
    cases hconn : c1.conn with
    | none => exact ⟨[], by simp, subPhase_nil⟩
    | some h =>
      simp only [Client.callBroker]
      cases hb : b c1.calls (BrokerCall.subscribe h subscriber.Subject opts) with
      | error e => exact ⟨_, rfl, subPhase_call _⟩
      | ok n =>
        exact ⟨_, by simp [Client.setSub, Client.record]; exact ⟨rfl, rfl, rfl⟩,
          subPhase_call_write _ _ _⟩

theorem queueSubscribe_trace (b : Broker) (subscriber : Subscriber) (q : String)
    (opts : List SubscriptionOption) (c : Client) :
    ∃ ss, (QueueSubscribe b subscriber q opts c).1.trace = (connect b c).1.trace ++ ss ∧
      SubPhase ss := by
  unfold QueueSubscribe
  rcases hc : connect b c with ⟨c1, o⟩
  cases o with
  | some e =>
    refine ⟨[], ?_, subPhase_nil⟩
    dsimp only
    split <;> simp
  | none =>
    dsimp only
    cases hconn : c1.conn with
    | none => exact ⟨[], by simp, subPhase_nil⟩
    | some h =>
      simp only [Client.callBroker]
      cases hb : b c1.calls (BrokerCall.queueSubscribe h subscriber.Subject q opts) with
      | error e => exact ⟨_, rfl, subPhase_call _⟩
      | ok n =>
        exact ⟨_, by simp [Client.setSub, Client.record]; exact ⟨rfl, rfl, rfl⟩,
          subPhase_call_write _ _ _⟩

theorem unsubscribe_trace (b : Broker) (iter : List String) (k : String) (c : Client) :
    ∃ ss, (Unsubscribe b iter k c).1.trace = (connect b c).1.trace ++ ss ∧ SubPhase ss := by
  unfold Unsubscribe
  rcases hc : connect b c with ⟨c1, o⟩
  cases o with
  | some e =>
    refine ⟨[], ?_, subPhase_nil⟩
    dsimp only
    split <;> simp
  | none =>
    dsimp only
    by_cases hk : k = "all"
    · simp only [hk, if_true]
      obtain ⟨ss, hss, hphase⟩ := unsubscribeAll_trace b iter c1
      refine ⟨ss, ?_, hphase⟩
      rcases hr : unsubscribeAll b iter c1 with ⟨c2, o2⟩
      rw [hr] at hss
      cases o2 <;> exact hss
    · simp only [hk, if_false]
      cases hl : c1.subscriptions.lookup k with
      | none => exact ⟨[], by simp, subPhase_nil⟩
      | some v =>
        cases v with
        | none => exact ⟨[], by simp, subPhase_nil⟩
        | some sub =>
          simp only [Client.callBroker]
          cases hb : b c1.calls (BrokerCall.unsubscribe sub) with
          | error e => exact ⟨_, rfl, subPhase_call _⟩
          | ok n =>
            exact ⟨_, by simp [Client.setSub, Client.record]; exact ⟨rfl, rfl, rfl⟩,
          subPhase_call_write _ _ _⟩

theorem close_trace (b : Broker) (c : Client) :
    ∃ ss, (Close b c).1.trace = c.trace ++ ss ∧ SubPhase ss := by
  unfold Close
  cases hconn : c.conn with
  | none => exact ⟨[], by simp, subPhase_nil⟩
  | some h =>
    simp only [Client.callBroker]
    cases hb : b c.calls (BrokerCall.close h) with
    | error e => exact ⟨_, rfl, subPhase_call _⟩
    | ok n => exact ⟨_, rfl, subPhase_call _⟩

theorem discipline_of_subPhase (ss : List Event) (hss : SubPhase ss) :
    ∀ p ∈ lockStates false ss,
      (p.1.isConnWrite = true → p.2 = true) ∧ (p.1.isSubWrite = true → p.2 = false) := by
  intro p hp
  have h := lockStates_plain false ss [] (fun e he => (hss e he).1)
  rw [List.append_nil] at h
  rw [h] at hp
  simp only [lockStates, List.append_nil, List.mem_map] at hp
  obtain ⟨e, he, rfl⟩ := hp
  exact ⟨fun hw => by simp [(hss e he).2] at hw, fun _ => rfl⟩

theorem discipline_of_shape (es ss : List Event) (hes : ConnPhase es) (hss : SubPhase ss) :
    ∀ p ∈ lockStates false (Event.lock :: (es ++ Event.unlock :: ss)),
      (p.1.isConnWrite = true → p.2 = true) ∧ (p.1.isSubWrite = true → p.2 = false) := by
  intro p hp
  rw [lockStates, lockStates_plain true es _ (fun e he => (hes e he).1), lockStates] at hp
  simp only [List.mem_cons, List.mem_append, List.mem_map] at hp
  rcases hp with rfl | ⟨e, he, rfl⟩ | rfl | hp
  · exact ⟨fun _ => rfl, fun h => by simp [Event.isSubWrite] at h⟩
  · exact ⟨fun _ => rfl, fun h => by simp [(hes e he).2] at h⟩
  · exact ⟨fun h => by simp [Event.isConnWrite] at h, fun _ => rfl⟩
  · exact discipline_of_subPhase ss hss p hp

theorem step_trace (b : Broker) (op : Op) (c : Client) :
    (∃ es ss, newEvents c (step b op c).1 = Event.lock :: (es ++ Event.unlock :: ss) ∧
      ConnPhase es ∧ SubPhase ss) ∨
    (∃ ss, newEvents c (step b op c).1 = ss ∧ SubPhase ss) := by
  obtain ⟨es, hes, hphase⟩ := connect_trace b c
  have assemble : ∀ (c2 : Client), (∃ ss, c2.trace = (connect b c).1.trace ++ ss ∧ SubPhase ss) →
      ∃ es ss, newEvents c c2 = Event.lock :: (es ++ Event.unlock :: ss) ∧
        ConnPhase es ∧ SubPhase ss := by
    rintro c2 ⟨ss, hss, hsub⟩
    refine ⟨es, ss, ?_, hphase, hsub⟩
    rw [newEvents, hss, hes, List.append_assoc, List.drop_left]
    simp
  cases op with
  | subscribe subscriber opts => exact Or.inl (assemble _ (subscribe_trace b subscriber opts c))
  | queueSubscribe subscriber q opts =>
    exact Or.inl (assemble _ (queueSubscribe_trace b subscriber q opts c))
  | unsubscribe iter k => exact Or.inl (assemble _ (unsubscribe_trace b iter k c))
  | close =>
    obtain ⟨ss, hss, hsub⟩ := close_trace b c
    exact Or.inr ⟨ss, by rw [step, newEvents, hss, List.drop_left], hsub⟩

theorem connect_events (b : Broker) (c : Client) :
    ∃ es, newEvents c (connect b c).1 = Event.lock :: (es ++ [Event.unlock]) ∧ ConnPhase es := by
  obtain ⟨es, hes, hphase⟩ := connect_trace b c
  exact ⟨es, by rw [newEvents, hes, List.drop_left], hphase⟩

theorem events_after_connect (b : Broker) (c c2 : Client)
    (h : ∃ ss, c2.trace = (connect b c).1.trace ++ ss ∧ SubPhase ss) :
    ∃ es ss, newEvents c c2 = Event.lock :: (es ++ Event.unlock :: ss) ∧
      ConnPhase es ∧ SubPhase ss := by
  obtain ⟨es, hes, hphase⟩ := connect_trace b c
  obtain ⟨ss, hss, hsub⟩ := h
  refine ⟨es, ss, ?_, hphase, hsub⟩
  rw [newEvents, hss, hes, List.append_assoc, List.drop_left]
  simp

/-- C10, as the code has it.  The events of an operation are those of the
goroutine that runs it, in program order.  Every run of `connect` (those started
by the reconnect loop of the connection-lost handler included) is one acquire,
then events without lock operation and without registry write, then one
release: each write to the connection handle lies between the acquire and the
matching release.  Every `Subscribe`, `QueueSubscribe` and `Unsubscribe` is that
same critical section of `connect` followed by events without lock operation and
without write to the connection handle: each write to the registry comes after
the release and the operation acquires the lock exactly once, so it does not
hold the lock at any registry write.  The last two parts say the same through
`lockStates`, which tracks whether the running operation itself holds the lock. -/
theorem lock_discipline (b : Broker) (c : Client) (op : Op) (subscriber : Subscriber)
    (q : String) (opts : List SubscriptionOption) (iter : List String) (key : String) :
    (∃ es, newEvents c (connect b c).1 = Event.lock :: (es ++ [Event.unlock]) ∧
      ∀ e ∈ es, e.isLockOp = false ∧ e.isSubWrite = false) ∧
    (∃ es ss, newEvents c (Subscribe b subscriber opts c).1 =
        Event.lock :: (es ++ Event.unlock :: ss) ∧
      (∀ e ∈ es, e.isLockOp = false ∧ e.isSubWrite = false) ∧
      (∀ e ∈ ss, e.isLockOp = false ∧ e.isConnWrite = false)) ∧
    (∃ es ss, newEvents c (QueueSubscribe b subscriber q opts c).1 =
        Event.lock :: (es ++ Event.unlock :: ss) ∧
      (∀ e ∈ es, e.isLockOp = false ∧ e.isSubWrite = false) ∧
      (∀ e ∈ ss, e.isLockOp = false ∧ e.isConnWrite = false)) ∧
    (∃ es ss, newEvents c (Unsubscribe b iter key c).1 =
        Event.lock :: (es ++ Event.unlock :: ss) ∧
      (∀ e ∈ es, e.isLockOp = false ∧ e.isSubWrite = false) ∧
      (∀ e ∈ ss, e.isLockOp = false ∧ e.isConnWrite = false)) ∧
    (∀ p ∈ lockStates false (newEvents c (connect b c).1),
      (p.1.isConnWrite = true → p.2 = true) ∧ p.1.isSubWrite = false) ∧
    (∀ p ∈ lockStates false (newEvents c (step b op c).1),
      (p.1.isConnWrite = true → p.2 = true) ∧ (p.1.isSubWrite = true → p.2 = false)) := by
  refine ⟨connect_events b c,
    events_after_connect b c _ (subscribe_trace b subscriber opts c),
    events_after_connect b c _ (queueSubscribe_trace b subscriber q opts c),
    events_after_connect b c _ (unsubscribe_trace b iter key c), ?_, ?_⟩
  · obtain ⟨es, hes, hphase⟩ := connect_trace b c
    intro p hp
    rw [newEvents, hes, List.drop_left] at hp
    refine ⟨(discipline_of_shape es [] hphase subPhase_nil p hp).1, ?_⟩
    rw [lockStates, lockStates_plain true es _ (fun e he => (hphase e he).1)] at hp
    simp only [lockStates, List.mem_cons, List.mem_append, List.mem_map, List.mem_singleton,
      List.not_mem_nil, or_false] at hp
    rcases hp with rfl | ⟨e, he, rfl⟩ | rfl
    · rfl
    · exact (hphase e he).2
    · rfl
  · rcases step_trace b op c with ⟨es, ss, h, hes, hss⟩ | ⟨ss, h, hss⟩
    · rw [h]
      exact discipline_of_shape es ss hes hss
    · rw [h]
      exact discipline_of_subPhase ss hss

/-- Counterexample to C10 as stated: `Subscribe` on the sample client writes the
registry after it has released the lock, and the connection-lost handler clears
the connection handle before it acquires the lock. -/
theorem lock_discipline_counterexample :
    (Event.writeSub "s-n" (some 0), false) ∈
      lockStates false
        (newEvents sampleClient (Subscribe acceptAll sampleSubscriber [] sampleClient).1) ∧
    ¬ WritesUnderLock
      (newEvents sampleClient (Subscribe acceptAll sampleSubscriber [] sampleClient).1) ∧
    ¬ WritesUnderLock
      (newEvents sampleClient
        (connectionLostHandler rejectAll (some noopReconnect) sampleClient).1) := by
  refine ⟨by decide, ?_, ?_⟩
  · intro h
    have := h (Event.writeSub "s-n" (some 0), false) (by decide) (Or.inr rfl)
    simp at this
  · intro h
    have := h (Event.writeConn none, false) (by decide) (Or.inl rfl)
    simp at this

end Stanclient

/-! ## Properties of logwrapper/zap.go -/

namespace Logwrapper

theorem collectFields_fields (fs acc : List Field) :
    collectFields (fs.map Value.field) acc = Except.ok (acc ++ fs) := by
  induction fs generalizing acc with
  | nil => simp [collectFields]
  | cons f rest ih => simp [collectFields, ih]

/-- What `Info` does with a string followed by zap fields: it passes them on. -/
theorem info_passes_on (msg : String) (fs : List Field) :
    Info (Value.str msg :: fs.map Value.field) = Except.ok (LogCall.mk Level.info msg fs) := by
  simp [Info, getMsgAndFields, collectFields_fields]

/-- What `Fatal` does with any arguments: it panics while unpacking them. -/
theorem fatal_always_panics (args : List Value) :
    Fatal args = Except.error "first argument not string" := rfl

/-- C8 at the arguments `("boom", zap.String("key", "val"))`: `Info` passes the
message and the field on to the zap logger, `Fatal` panics while unpacking them
and never reaches the zap logger. -/
theorem fatal_panics_on_string_and_fields :
    Info [Value.str "boom", Value.field sampleField] =
      Except.ok (LogCall.mk Level.info "boom" [sampleField]) ∧
    Fatal [Value.str "boom", Value.field sampleField] =
      Except.error "first argument not string" ∧
    Fatal [Value.str "boom", Value.field sampleField] ≠
      Except.ok (LogCall.mk Level.fatal "boom" [sampleField]) := by
  refine ⟨rfl, rfl, ?_⟩
  rw [fatal_always_panics]
  exact fun h => nomatch h

end Logwrapper
